import Mathlib

/-!
# libed2k: peer policy, transfer and known-file collection

A shallow embedding of `src/src/policy.cpp` (the peer registry of one transfer and the
admission of connections), of `src/libed2k/src/transfer.cpp` (the piece-completion state
of a transfer) and of `known_file_collection` in `src/include/libed2k/file.hpp`, followed
by theorems about them.

Conventions of the embedding.

* A network address is a natural number; the order on addresses is the order of `Nat`.
  An endpoint is an address together with a port.
* `policy::m_peers` is a `std::vector<peer*>`.  A peer object lives in the session's peer
  pool; the embedding keeps the object inside the list and records the address of its
  pool chunk in the field `ptr`, so that `peer*` values (`c.get_peer()`, the result of
  `add_peer`) are values of `ptr`.
* `peer_connection` objects live in a store indexed by their address (`conns`); a
  `peer_connection*` is an index into that store, the null pointer is `none`.
* Calls of `peer_connection::disconnect` are recorded, in order, in `disconnects`.
* `LIBED2K_ASSERT` is a debug-build check and is not part of the embedding.
* The calls a transfer makes are recorded, in order, in `calls`; a call through a null
  `m_picker` has no defined behaviour and yields `none`.
-/

namespace libed2k

/-! ## Data model -/

/-- An endpoint `tcp::endpoint`: address and port. -/
structure tcp_endpoint where
  address : Nat
  port : Nat
deriving DecidableEq, Repr

/-- The default-constructed endpoint `tcp::endpoint()`, which the socket accessors return
when they report an error. -/
def tcp_endpoint.any : tcp_endpoint := ⟨0, 0⟩

/-- An `error_code`: the library's own reasons used in `policy.cpp`, and `system n` for an
error of the operating system (any non-zero code). -/
inductive error_code where
  | no_error
  | self_connection
  | duplicate_peer_id
  | too_many_connections
  | banned_by_ip_filter
  | transfer_finished
  | system (errno : Nat)
deriving DecidableEq, Repr

/-- The conversion `error_code::operator bool`: true when an error is held. -/
def error_code.failed : error_code → Bool
  | .no_error => false
  | _ => true

/-- A `tcp::socket` as far as `policy.cpp` looks at it: what `local_endpoint(ec)` and
`remote_endpoint(ec)` yield, an endpoint or the number of a system error. -/
structure tcp_socket where
  local_endpoint : Except Nat tcp_endpoint
  remote_endpoint : Except Nat tcp_endpoint

/-- A `peer_connection` as far as `policy.cpp` looks at it. `remote` is `c.remote()`,
`peer_info` is the back-reference `c.get_peer()` (`none` for the null pointer). -/
structure peer_connection where
  remote : tcp_endpoint
  socket : tcp_socket
  is_connecting : Bool
  is_local : Bool
  peer_info : Option Nat

/-- A peer record. `ptr` is the address of the record in the peer pool, `connectable` the
second argument of the constructor `peer(ep, false)`, `connection` the pointer to the live
connection (`none` for the null pointer). -/
structure peer where
  ptr : Nat
  endpoint : tcp_endpoint
  connectable : Bool
  connection : Option Nat
deriving DecidableEq, Repr

/-- The accessor `peer::address()`. -/
def peer.address (p : peer) : Nat := p.endpoint.address

/-- The constructor call `new (p) peer(ep, false)` on the pool chunk `p`. -/
def peer.create (p : Nat) (ep : tcp_endpoint) (connectable : Bool) : peer :=
  { ptr := p, endpoint := ep, connectable := connectable, connection := none }

/-- The alerts posted by `policy.cpp`. -/
inductive alert where
  | peer_blocked (handle : Nat) (address : Nat)
deriving DecidableEq, Repr

/-- The settings of the session that `policy.cpp` reads. -/
structure session_settings where
  allow_multiple_connections_per_ip : Bool
  max_peerlist_size : Int

/-- The pool `ses.m_peer_pool` of peer records: the chunks it can still hand out, and the
growth parameter set by `set_next_size`. -/
structure peer_pool where
  free : List Nat
  next_size : Nat

/-- The call `m_peer_pool.malloc()`: the next chunk, or `none` (the null pointer) when the
pool cannot provide one. -/
def peer_pool.malloc (pool : peer_pool) : Option Nat × peer_pool :=
  match pool.free with
  | [] => (none, pool)
  | p :: rest => (some p, { pool with free := rest })

/-- The call `m_peer_pool.set_next_size(n)`. -/
def peer_pool.set_next_size (pool : peer_pool) (n : Nat) : peer_pool :=
  { pool with next_size := n }

/-- The part of `aux::session_impl` that `policy.cpp` and `transfer.cpp` use. `m_ip_filter`
gives the access flags of an address, `m_alerts` the alerts handed to the alert sink so
far, `m_connections` the session-wide set of connections, `is_paused` what
`m_ses.is_paused()` answers. -/
structure session_impl where
  m_ip_filter : Nat → Nat
  m_alerts : List alert
  settings : session_settings
  m_peer_pool : peer_pool
  m_connections : List Nat
  is_paused : Bool

/-- The flag `ip_filter::blocked`. -/
def ip_filter.blocked : Nat := 1

/-- The state a `policy` works on: the session, the handle of the owning transfer, the
registry `m_peers`, the store of connection objects and the record of disconnects
(connection, reason, second argument of `disconnect`). -/
structure policy_state where
  ses : session_impl
  handle : Nat
  m_peers : List peer
  conns : Nat → peer_connection
  disconnects : List (Nat × error_code × Nat)

/-! ## Searching the registry -/

/-- Modelled from the spec: the comparison `peer_address_compare` of `policy.hpp`, which is
not among the sources; the registry is "sorted by address", so a record is before an
address when its address is smaller. -/
def peer_address_compare (lhs : peer) (rhs : Nat) : Bool := decide (lhs.address < rhs)

/-- The counterpart of `peer_address_compare` with the address on the left. -/
def address_peer_compare (lhs : Nat) (rhs : peer) : Bool := decide (lhs < rhs.address)

/-- The loop shared by `std::lower_bound` and `std::upper_bound`: the range
`[first, first + len)` is halved while `len > 0`; `go_right` tells whether the search
continues behind the middle element. The first argument bounds the number of iterations
(`len` iterations always suffice, see `bound_loop_bounds`). -/
def bound_loop (go_right : peer → Bool) (xs : List peer) : Nat → Nat → Nat → Nat
  | 0, first, _ => first
  | fuel + 1, first, len =>
    if len = 0 then first
    else
      let half := len / 2
      let middle := first + half
      match xs[middle]? with
      | none => first
      | some m =>
        if go_right m then bound_loop go_right xs fuel (middle + 1) (len - half - 1)
        else bound_loop go_right xs fuel first half

/-- The call `std::lower_bound(m_peers.begin(), m_peers.end(), a, peer_address_compare())`,
as an index into the registry. -/
def lower_bound (xs : List peer) (a : Nat) : Nat :=
  bound_loop (fun m => peer_address_compare m a) xs xs.length 0 xs.length

/-- The call `std::upper_bound(m_peers.begin(), m_peers.end(), a, peer_address_compare())`,
as an index into the registry. -/
def upper_bound (xs : List peer) (a : Nat) : Nat :=
  bound_loop (fun m => !address_peer_compare a m) xs xs.length 0 xs.length

/-- Modelled from the spec: `policy::find_peers` of `policy.hpp`, which is not among the
sources; it yields "the IP's sub-range", the equal range of the address in the registry. -/
def find_peers (xs : List peer) (a : Nat) : Nat × Nat :=
  (lower_bound xs a, upper_bound xs a)

/-- The functor `match_peer_endpoint`. -/
def match_peer_endpoint (ep : tcp_endpoint) (p : peer) : Bool := decide (p.endpoint = ep)

/-- The call `std::find_if(first, last, pred)` on iterators of the registry: the first
index in `[first, last)` whose record satisfies `pred`, and `last` when there is none. The
first argument is the number of positions still to visit. -/
def find_if_loop (pred : peer → Bool) (xs : List peer) : Nat → Nat → Nat → Nat
  | 0, _, last => last
  | n + 1, first, last =>
    match xs[first]? with
    | none => last
    | some p => if pred p then first else find_if_loop pred xs n (first + 1) last

/-- The call `std::find_if(first, last, pred)`. -/
def find_if (pred : peer → Bool) (xs : List peer) (first last : Nat) : Nat :=
  find_if_loop pred xs (last - first) first last

/-- The call `m_peers.insert(iter, p)`: `p` is put before position `iter`. -/
def vector_insert (xs : List peer) (iter : Nat) (p : peer) : List peer :=
  xs.take iter ++ p :: xs.drop iter

/-- The lookup with which both `add_peer` (lines 47-65) and `new_connection`
(lines 90-110) start: the iterator reached and the flag `found`. -/
def lookup (st : policy_state) (ep : tcp_endpoint) : Nat × Bool :=
  if st.ses.settings.allow_multiple_connections_per_ip then
    let range := find_peers st.m_peers ep.address
    let iter := find_if (match_peer_endpoint ep) st.m_peers range.1 range.2
    (iter, decide (iter ≠ range.2))
  else
    let iter := lower_bound st.m_peers ep.address
    match st.m_peers[iter]? with
    | none => (iter, false)
    | some p => (iter, decide (p.address = ep.address))

/-! ## Operations of the policy -/

/-- Modelled from the spec: `alert_manager::post_alert_should`, which is not among the
sources; the notification sink "accepts typed alerts", fire-and-forget, so the alert is
added to what the sink has been handed. -/
def post_alert_should (ses : session_impl) (a : alert) : session_impl :=
  { ses with m_alerts := ses.m_alerts ++ [a] }

/-- The function `policy::set_connection` (lines 266-269), `p->connection = x`, for the
record in the pool chunk `p`. -/
def set_connection (xs : List peer) (p : Nat) (x : Option Nat) : List peer :=
  xs.map (fun q => if q.ptr = p then { q with connection := x } else q)

/-- The assignment `i->connection = x` where `i = *iter`. -/
def assign_connection_at (xs : List peer) (iter : Nat) (x : Option Nat) : List peer :=
  xs.modify (fun q => { q with connection := x }) iter

/-- The call `c.set_peer(p)`. -/
def set_peer (st : policy_state) (c : Nat) (p : Option Nat) : policy_state :=
  { st with conns := Function.update st.conns c { st.conns c with peer_info := p } }

/-- The function `policy::connection_closed` (lines 194-222): the record the connection
refers to loses its connection pointer; the registry keeps all its records. -/
def connection_closed (st : policy_state) (c : Nat) : policy_state :=
  match (st.conns c).peer_info with
  | none => st
  | some p => { st with m_peers := set_connection st.m_peers p none }

/-- Modelled from the spec: `peer_connection::disconnect(ec, error)`, which is not among
the sources. Disconnecting is synchronous and clears the state before it returns: the
policy is told through `connection_closed`, the connection's back-reference to its peer
record is cleared, and the peer record survives. The call is recorded. -/
def disconnect (st : policy_state) (c : Nat) (ec : error_code) (error : Nat) :
    policy_state :=
  let st1 := set_peer (connection_closed st c) c none
  { st1 with disconnects := st1.disconnects ++ [(c, ec, error)] }

/-- The function `policy::add_peer` (lines 36-82). The result is the returned `peer*`
(`none` for `NULL`) and the state after the call. -/
def add_peer (st : policy_state) (ep : tcp_endpoint) : Option Nat × policy_state :=
  if st.ses.m_ip_filter ep.address &&& ip_filter.blocked ≠ 0 then
    (none, { st with
      ses := post_alert_should st.ses (alert.peer_blocked st.handle ep.address) })
  else
    let r := lookup st ep
    if r.2 then ((st.m_peers[r.1]?).map peer.ptr, st)
    else
      match st.ses.m_peer_pool.malloc with
      | (none, pool) => (none, { st with ses := { st.ses with m_peer_pool := pool } })
      | (some p, pool) =>
        (some p, { st with
          ses := { st.ses with m_peer_pool := pool.set_next_size 500 }
          m_peers := vector_insert st.m_peers r.1 (peer.create p ep false) })

/-- What a socket accessor `local_endpoint(ec)` or `remote_endpoint(ec)` hands back: the
endpoint and a cleared `ec`, or the default endpoint and the error in `ec`. -/
def read_endpoint (r : Except Nat tcp_endpoint) : tcp_endpoint × error_code :=
  match r with
  | .ok ep => (ep, error_code.no_error)
  | .error n => (tcp_endpoint.any, error_code.system n)

/-- The expression of lines 125-128 with its two error codes: the value of
`self_connection`, then `ec1` (reads of the new connection's socket) and `ec2` (reads of
the existing connection's socket). The second comparison is evaluated only when the first
one is false, and every read overwrites its error code. -/
def self_connection_test (other_socket this_socket : tcp_socket) :
    Bool × error_code × error_code :=
  let other_remote := read_endpoint other_socket.remote_endpoint
  let this_local := read_endpoint this_socket.local_endpoint
  if other_remote.1 = this_local.1 then (true, this_local.2, other_remote.2)
  else
    let other_local := read_endpoint other_socket.local_endpoint
    let this_remote := read_endpoint this_socket.remote_endpoint
    (decide (other_local.1 = this_remote.1), this_remote.2, other_local.2)

/-- Lines 184-190 of `new_connection`: `c.set_peer(i); i->connection = &c;` for the record
`i = *iter`. -/
def bind_connection (st : policy_state) (iter : Nat) (i : peer) (c : Nat) : policy_state :=
  let st1 := set_peer st c (some i.ptr)
  { st1 with m_peers := assign_connection_at st1.m_peers iter (some c) }

/-- The function `policy::new_connection` (lines 84-191). The result is the returned flag
and the state after the call.

* `found` implies that the iterator is at a record (`lookup_found`), so the branch
  `none` of `st.m_peers[r.1]?` is not reached.
* On the self-connection path `i->connection` is read again after `c.disconnect`
  (line 139); were it null by then, the C++ call would go through a null pointer, and the
  embedding makes no further call.
* `int(m_peers.size())` is the size itself: registries stay far below `2^31` records. -/
def new_connection (st : policy_state) (c : Nat) : Bool × policy_state :=
  let r := lookup st (st.conns c).remote
  if r.2 then
    match st.m_peers[r.1]? with
    | none => (false, st)
    | some i =>
      match i.connection with
      | none => (true, bind_connection st r.1 i c)
      | some e =>
        let t := self_connection_test (st.conns e).socket (st.conns c).socket
        let self_connection := t.1
        let ec1 := t.2.1
        let ec2 := t.2.2
        if ec1.failed then (false, disconnect st c ec1 0)
        else if self_connection then
          let st1 := disconnect st c error_code.self_connection 1
          match (st1.m_peers[r.1]?).bind peer.connection with
          | none => (false, st1)
          | some e1 => (false, disconnect st1 e1 error_code.self_connection 1)
        else if ec2.failed then
          (true, bind_connection (disconnect st e ec2 0) r.1 i c)
        else if !(st.conns e).is_connecting || (st.conns c).is_local then
          (false, disconnect st c error_code.duplicate_peer_id 0)
        else
          (true, bind_connection (disconnect st e error_code.duplicate_peer_id 0) r.1 i c)
  else
    if (st.m_peers.length : Int) ≥ st.ses.settings.max_peerlist_size then
      (false, disconnect st c error_code.too_many_connections 0)
    else
      match st.ses.m_peer_pool.malloc with
      | (none, pool) => (false, { st with ses := { st.ses with m_peer_pool := pool } })
      | (some p, pool) =>
        let i := peer.create p (st.conns c).remote false
        let st1 : policy_state := { st with
          ses := { st.ses with m_peer_pool := pool.set_next_size 500 }
          m_peers := vector_insert st.m_peers r.1 i }
        (true, bind_connection st1 r.1 i c)

/-- Modelled from the spec: `session_impl::find_peer_connection`, which is not among the
sources; the session-wide connection registry is searched "by endpoint". -/
def find_peer_connection (st : policy_state) (ep : tcp_endpoint) : Option Nat :=
  st.ses.m_connections.find? (fun c => decide ((st.conns c).remote = ep))

/-- The function `policy::is_connect_candidate` (lines 294-316). -/
def is_connect_candidate (st : policy_state) (p : peer) : Bool :=
  if p.connection.isSome then false
  else if (find_peer_connection st p.endpoint).isSome then false
  else true

/-! ## Notions used in the statements -/

/-- The registry is sorted by address: no record is smaller, under
`peer_address_compare`, than a record before it. -/
@[reducible] def sorted_by_address (xs : List peer) : Prop :=
  xs.Pairwise (fun p q => peer_address_compare q p.address = false)

/-- A sequence of `add_peer` calls, one per endpoint, in order. -/
def add_peers (st : policy_state) (eps : List tcp_endpoint) : policy_state :=
  eps.foldl (fun s ep => (add_peer s ep).2) st

/-- The dedup rule of `add_peer` and `new_connection`: the whole endpoint when several
connections per IP are allowed, the address alone otherwise. -/
def dedup_match (multiple : Bool) (ep : tcp_endpoint) (p : peer) : Bool :=
  if multiple then decide (p.endpoint = ep) else decide (p.address = ep.address)

/-! ## Sample states -/

/-- A connection object from `ep_local` to `ep_remote` whose socket reads succeed. -/
def sample_connection (ep_local ep_remote : tcp_endpoint) (connecting is_local : Bool) :
    peer_connection :=
  { remote := ep_remote
    socket := { local_endpoint := .ok ep_local, remote_endpoint := .ok ep_remote }
    is_connecting := connecting
    is_local := is_local
    peer_info := none }

/-- A session whose IP filter blocks the address 66 and whose pool has three chunks. -/
def sample_session (multiple : Bool) (cap : Int) : session_impl :=
  { m_ip_filter := fun a => if a = 66 then 1 else 0
    m_alerts := []
    settings := { allow_multiple_connections_per_ip := multiple, max_peerlist_size := cap }
    m_peer_pool := { free := [10, 11, 12], next_size := 32 }
    m_connections := []
    is_paused := false }

/-- A policy state over `sample_session` with the given registry and connection store. -/
def sample_state (multiple : Bool) (cap : Int) (peers : List peer)
    (conns : Nat → peer_connection) : policy_state :=
  { ses := sample_session multiple cap
    handle := 7
    m_peers := peers
    conns := conns
    disconnects := [] }

/-- A store in which every connection is an established inbound one from `2:200`. -/
def sample_conns : Nat → peer_connection :=
  fun _ => sample_connection ⟨1, 100⟩ ⟨2, 200⟩ false false

/-- A sorted registry with the addresses 3 and 5, single-connection-per-IP mode. -/
def sample_sorted_state : policy_state :=
  sample_state false 8 [peer.create 20 ⟨3, 1⟩ false, peer.create 21 ⟨5, 1⟩ false]
    sample_conns

/-- The registry `ys` is the registry `xs` up to cleared connection pointers: the same
records at the same positions, each either unchanged or with its connection pointer set
to null. -/
def only_cleared (xs ys : List peer) : Prop :=
  List.Forall₂ (fun p q => q = p ∨ q = { p with connection := none }) xs ys

/-- Two socket reads that both succeed and yield the same endpoint. -/
def endpoints_agree : Except Nat tcp_endpoint → Except Nat tcp_endpoint → Bool
  | .ok x, .ok y => decide (x = y)
  | _, _ => false

/-- The (local, remote) endpoint pairs of two connections cross-match: the remote endpoint
of one is the local endpoint of the other. -/
def cross_match (other_socket this_socket : tcp_socket) : Bool :=
  endpoints_agree other_socket.remote_endpoint this_socket.local_endpoint ||
    endpoints_agree other_socket.local_endpoint this_socket.remote_endpoint

/-- A connection store with the existing connection `e` at address 1 and the new
connection `c` everywhere else (address 0 in the samples). -/
def two_connections (c e : peer_connection) : Nat → peer_connection :=
  fun n => if n = 1 then e else c

/-- A registry with one record, for `2:200`, whose live connection is the connection at
address 1; single-connection-per-IP mode. -/
def live_state (c e : peer_connection) : policy_state :=
  sample_state false 8
    [{ ptr := 20, endpoint := ⟨2, 200⟩, connectable := false, connection := some 1 }]
    (two_connections c e)

/-- A registry at its cap of two records, addresses 3 and 5. -/
def full_state : policy_state :=
  sample_state false 2 [peer.create 20 ⟨3, 1⟩ false, peer.create 21 ⟨5, 1⟩ false]
    sample_conns

/-- An existing connection attached to the record in chunk 20. -/
def existing_connection (ep_local ep_remote : tcp_endpoint) (connecting : Bool) :
    peer_connection :=
  { sample_connection ep_local ep_remote connecting true with peer_info := some 20 }

/-- A new inbound connection from `2:200` whose socket fails to report its local endpoint,
arriving while the outgoing connection to the same peer (local endpoint `2:200`) has not
connected yet. -/
def unreadable_local_state : policy_state :=
  live_state
    { sample_connection ⟨1, 100⟩ ⟨2, 200⟩ false false with
      socket := { local_endpoint := .error 105, remote_endpoint := .ok ⟨2, 200⟩ } }
    { existing_connection ⟨2, 200⟩ ⟨1, 100⟩ true with
      socket := { local_endpoint := .ok ⟨2, 200⟩, remote_endpoint := .error 107 } }

/-- A self-connection: the new connection's endpoints are those of the existing one,
exchanged. -/
def self_connection_state : policy_state :=
  live_state (sample_connection ⟨1, 100⟩ ⟨2, 200⟩ false false)
    (existing_connection ⟨2, 200⟩ ⟨1, 100⟩ true)

/-- A new local (outgoing) connection while the existing connection to the peer is still
connecting. -/
def local_duplicate_state : policy_state :=
  live_state (sample_connection ⟨1, 100⟩ ⟨2, 200⟩ true true)
    (existing_connection ⟨1, 101⟩ ⟨2, 201⟩ true)

/-- A new inbound connection while the existing connection to the peer is still
connecting. -/
def inbound_duplicate_state : policy_state :=
  live_state (sample_connection ⟨1, 100⟩ ⟨2, 200⟩ false false)
    (existing_connection ⟨1, 101⟩ ⟨2, 201⟩ true)

/-- A new inbound connection while the socket of the existing connection reports an error
on both reads. -/
def unreadable_existing_state : policy_state :=
  live_state (sample_connection ⟨1, 100⟩ ⟨2, 200⟩ false false)
    { existing_connection ⟨1, 101⟩ ⟨2, 201⟩ false with
      socket := { local_endpoint := .error 9, remote_endpoint := .error 9 } }

/-- A new inbound connection whose own socket reports an error on both reads. -/
def unreadable_new_state : policy_state :=
  live_state
    { sample_connection ⟨1, 100⟩ ⟨2, 200⟩ false false with
      socket := { local_endpoint := .error 9, remote_endpoint := .error 9 } }
    (existing_connection ⟨1, 101⟩ ⟨2, 201⟩ false)

/-- A new inbound connection whose socket fails to report its local endpoint but reports
its remote one, arriving while the existing connection to the peer has not connected
yet; the endpoints of the two sockets differ. -/
def overwritten_error_state : policy_state :=
  live_state
    { sample_connection ⟨1, 100⟩ ⟨2, 200⟩ false false with
      socket := { local_endpoint := .error 105, remote_endpoint := .ok ⟨2, 200⟩ } }
    (existing_connection ⟨1, 101⟩ ⟨2, 201⟩ true)

/-- A registry in multiple-connections-per-IP mode that already has a record for the
blocked address 66. -/
def blocked_state : policy_state :=
  sample_state true 8 [peer.create 20 ⟨66, 1⟩ false] sample_conns

/-! ## Further operations of the policy -/

/-- The test `ses.m_ip_filter.access(a) & ip_filter::blocked` of `add_peer` and
`ip_filter_updated`, for the IP filter `filter`. -/
def address_blocked (filter : Nat → Nat) (a : Nat) : Bool :=
  decide (filter a &&& ip_filter.blocked ≠ 0)

/-- One round of the loop of `policy::ip_filter_updated` (lines 231-259) for the record
`p = **i`: nothing for an address that is not blocked; otherwise the alert is posted and
the connection of the record, if it has one, is disconnected with
`banned_by_ip_filter`. -/
def ip_filter_updated_step (st : policy_state) (p : peer) : policy_state :=
  if st.ses.m_ip_filter p.address &&& ip_filter.blocked = 0 then st
  else
    let st1 : policy_state := { st with
      ses := post_alert_should st.ses (alert.peer_blocked st.handle p.address) }
    match p.connection with
    | none => st1
    | some c => disconnect st1 c error_code.banned_by_ip_filter 0

/-- The loop of `policy::ip_filter_updated`: the iterator `i` runs from its position to
`m_peers.end()`, and `*i` is read from the registry as it is in that round. The first
argument bounds the number of rounds; the registry never changes its size in a round
(`ip_filter_updated_step_length`), so its size bounds them. -/
def ip_filter_updated_loop : Nat → Nat → policy_state → policy_state
  | 0, _, st => st
  | n + 1, i, st =>
    match st.m_peers[i]? with
    | none => st
    | some p => ip_filter_updated_loop n (i + 1) (ip_filter_updated_step st p)

/-- The function `policy::ip_filter_updated` (lines 225-264). -/
def ip_filter_updated (st : policy_state) : policy_state :=
  ip_filter_updated_loop st.m_peers.length 0 st

/-- The function `policy::find_connect_candidate` (lines 286-292): the index of the first
record that is a connect candidate, and the size of the registry (`m_peers.end()`) when
there is none. -/
def find_connect_candidate (st : policy_state) : Nat :=
  find_if (is_connect_candidate st) st.m_peers 0 st.m_peers.length

/-- The function `policy::connect_one_peer` (lines 271-284). The policy calls back into
its transfer; `connect_to_peer` is `transfer::connect_to_peer`, acting on the state `σ` of
the transfer, of which `policy` is the part the policy owns, and taking the `peer*`. -/
def connect_one_peer {σ : Type} (policy : σ → policy_state)
    (connect_to_peer : σ → Nat → Bool × σ) (s : σ) : Bool × σ :=
  let i := find_connect_candidate (policy s)
  match (policy s).m_peers[i]? with
  | none => (false, s)
  | some p =>
    let r := connect_to_peer s p.ptr
    if !r.1 then (false, r.2) else (true, r.2)

/-- The links between records and connections are consistent: the connection of a record
refers back to that record (the check of `connection_closed`, line 205, seen from the
record), and the records are distinct pool chunks. -/
@[reducible] def well_linked (st : policy_state) : Prop :=
  (∀ q ∈ st.m_peers, ∀ c, q.connection = some c → (st.conns c).peer_info = some q.ptr) ∧
  (st.m_peers.map peer.ptr).Nodup

/-- The record as `ip_filter_updated` leaves it when the links are consistent: without its
connection when its address is blocked, untouched otherwise. -/
def clear_if_blocked (filter : Nat → Nat) (p : peer) : peer :=
  if address_blocked filter p.address then { p with connection := none } else p

/-- The alerts `ip_filter_updated` posts for a registry: one `peer_blocked` for every
record with a blocked address, in the order of the registry. -/
def blocked_alerts (filter : Nat → Nat) (handle : Nat) (xs : List peer) : List alert :=
  (xs.filter (fun p => address_blocked filter p.address)).map
    (fun p => alert.peer_blocked handle p.address)

/-- The disconnects `ip_filter_updated` makes for a registry: one with
`banned_by_ip_filter` for every record with a blocked address and a connection, in the
order of the registry. -/
def banned_disconnects (filter : Nat → Nat) (xs : List peer) :
    List (Nat × error_code × Nat) :=
  (xs.filter (fun p => address_blocked filter p.address)).filterMap
    (fun p => p.connection.map (fun c => (c, error_code.banned_by_ip_filter, 0)))

/-- Two registered peers, 3 and 66, each with a live connection that refers back to it;
the address 66 is blocked. -/
def filter_state : policy_state :=
  sample_state false 8
    [{ ptr := 20, endpoint := ⟨3, 1⟩, connectable := false, connection := some 0 },
     { ptr := 21, endpoint := ⟨66, 1⟩, connectable := false, connection := some 1 }]
    (two_connections
      { sample_connection ⟨1, 100⟩ ⟨3, 1⟩ false true with peer_info := some 20 }
      { sample_connection ⟨1, 101⟩ ⟨66, 1⟩ false true with peer_info := some 21 })

/-- A stand-in for `transfer::connect_to_peer`: it reports success for the peer in pool
chunk 21 only, and records the peer it was asked to connect to. -/
def sample_connect_to_peer (s : policy_state × List Nat) (p : Nat) :
    Bool × (policy_state × List Nat) :=
  (decide (p = 21), (s.1, s.2 ++ [p]))

/-! ## The transfer

A shallow embedding of `src/libed2k/src/transfer.cpp`. The piece tracker
`libtorrent::piece_picker` is an external component: the embedding takes its state as a
type `P` and its operations as a parameter, so that what is proved holds for every
tracker. The calls a transfer makes are recorded, in order, in `calls`. -/

/-- The operations of the piece tracker that `transfer.cpp` calls, on a tracker state `P`. -/
structure piece_picker (P : Type) where
  we_have : P → Int → P
  is_piece_finished : P → Int → Bool
  restore_piece : P → Int → P
  num_have : P → Int

/-- The calls of a transfer that the statements speak about. -/
inductive transfer_event where
  | we_have (index : Int)
  | restore_piece (index : Int)
  | piece_failed (index : Int)
  | restore_piece_state (index : Int)
  | finished
  | completed
  | disconnect (c : Nat) (ec : error_code) (error : Nat)
  | second_tick (c : Nat)
  | async_release_files
deriving DecidableEq, Repr

/-- The state of a `transfer`: its policy (with the session and the connection objects),
its flags, the file size and the constant `PIECE_SIZE` of `constants.hpp`, the tracker
`m_picker` (`none` for the null pointer), the set `m_connections` in iteration order, what
`upload_only()` answers for a connection and whether its `second_tick()` throws a
`std::exception`, and the calls made so far. -/
structure transfer_state (P : Type) where
  policy : policy_state
  m_abort : Bool
  m_paused : Bool
  m_seed_mode : Bool
  m_filesize : Nat
  PIECE_SIZE : Nat
  m_picker : Option P
  m_connections : List Nat
  upload_only : Nat → Bool
  second_tick_throws : Nat → Bool
  calls : List transfer_event

/-- Modelled from the spec: `div_ceil` of `util.hpp`, which is not among the sources; the
piece count is "ceil(filesize / piece_size)". -/
def div_ceil (x y : Nat) : Nat := x / y + (if x % y = 0 then 0 else 1)

/-- The function `transfer::num_pieces` (lines 115-118). -/
def num_pieces {P : Type} (st : transfer_state P) : Int :=
  (div_ceil st.m_filesize st.PIECE_SIZE : Nat)

/-- Modelled from the spec: `transfer::has_picker` of `transfer.hpp`, which is not among
the sources; the transfer owns a piece tracker or none. -/
def has_picker {P : Type} (st : transfer_state P) : Bool := st.m_picker.isSome

/-- Modelled from the spec: `transfer::num_have` of `transfer.hpp`, which is not among the
sources; the number of pieces the tracker has, and all of them for a transfer without a
tracker (a seed needs "no piece accounting"). -/
def num_have {P : Type} (ops : piece_picker P) (st : transfer_state P) : Int :=
  match st.m_picker with
  | some pk => ops.num_have pk
  | none => num_pieces st

/-- Modelled from the spec: `transfer::is_finished` of `transfer.hpp`, which is not among
the sources; the transfer "now has all pieces". -/
def is_finished {P : Type} (ops : piece_picker P) (st : transfer_state P) : Bool :=
  decide (num_have ops st = num_pieces st)

/-- Modelled from the spec: `transfer::is_seed` of `transfer.hpp`, which is not among the
sources; a seed is a transfer for which "all pieces are owned locally", with or without
a tracker. -/
def is_seed {P : Type} (ops : piece_picker P) (st : transfer_state P) : Bool :=
  !has_picker st || decide (num_have ops st = num_pieces st)

/-- The function `transfer::we_have` (lines 108-113). The result is `none` when
`m_picker` is null: the call goes through a null pointer. -/
def we_have {P : Type} (ops : piece_picker P) (st : transfer_state P) (index : Int) :
    Option (transfer_state P) :=
  match st.m_picker with
  | none => none
  | some pk =>
    some { st with
      m_picker := some (ops.we_have pk index)
      calls := st.calls ++ [transfer_event.we_have index] }

/-- The function `transfer::completed` (lines 121-129). -/
def completed {P : Type} (st : transfer_state P) : transfer_state P :=
  { st with m_picker := none, calls := st.calls ++ [transfer_event.completed] }

/-- A call `p->disconnect(ec, error)` made by the transfer: the call is recorded and the
connection is disconnected as in `disconnect`. -/
def transfer_disconnect {P : Type} (st : transfer_state P) (c : Nat) (ec : error_code)
    (error : Nat) : transfer_state P :=
  { st with
    policy := disconnect st.policy c ec error
    calls := st.calls ++ [transfer_event.disconnect c ec error] }

/-- The function `transfer::finished` (lines 133-161), for a transfer whose storage has
been set up by `init()`. -/
def finished {P : Type} (ops : piece_picker P) (st : transfer_state P) : transfer_state P :=
  let st0 : transfer_state P := { st with calls := st.calls ++ [transfer_event.finished] }
  let st1 := if is_seed ops st0 then completed st0 else st0
  let st2 := st1.m_connections.foldl
    (fun s p =>
      if s.upload_only p then transfer_disconnect s p error_code.transfer_finished 0 else s)
    st1
  { st2 with calls := st2.calls ++ [transfer_event.async_release_files] }

/-- The function `transfer::piece_passed` (lines 92-106). -/
def piece_passed {P : Type} (ops : piece_picker P) (st : transfer_state P) (index : Int) :
    Option (transfer_state P) :=
  let was_finished := decide (num_have ops st = num_pieces st)
  match we_have ops st index with
  | none => none
  | some st1 =>
    if !was_finished && is_finished ops st1 then some (finished ops st1) else some st1

/-- The function `transfer::piece_failed` (lines 163-165): its body is empty. -/
def piece_failed {P : Type} (st : transfer_state P) (index : Int) : transfer_state P :=
  { st with calls := st.calls ++ [transfer_event.piece_failed index] }

/-- The function `transfer::restore_piece_state` (lines 167-169): its body is empty. -/
def restore_piece_state {P : Type} (st : transfer_state P) (index : Int) :
    transfer_state P :=
  { st with calls := st.calls ++ [transfer_event.restore_piece_state index] }

/-- The function `transfer::piece_finished` (lines 230-256). The result is `none` when
`m_picker` is null: the call goes through a null pointer. -/
def piece_finished {P : Type} (ops : piece_picker P) (st : transfer_state P) (index : Int)
    (passed_hash_check : Int) : Option (transfer_state P) :=
  match st.m_picker with
  | none => none
  | some pk =>
    if !ops.is_piece_finished pk index then some st
    else if passed_hash_check = 0 then piece_passed ops st index
    else if passed_hash_check = -2 then some (piece_failed st index)
    else
      some (restore_piece_state
        { st with
          m_picker := some (ops.restore_piece pk index)
          calls := st.calls ++ [transfer_event.restore_piece index] }
        index)

/-- The function `transfer::second_tick` (lines 202-219): every connection of the set is
ticked, and one whose tick throws a `std::exception` is disconnected with `no_error`. -/
def second_tick {P : Type} (st : transfer_state P) : transfer_state P :=
  st.m_connections.foldl
    (fun s p =>
      let s1 : transfer_state P := { s with calls := s.calls ++ [transfer_event.second_tick p] }
      if s1.second_tick_throws p then transfer_disconnect s1 p error_code.no_error 1 else s1)
    st

/-- A sequence of `piece_passed` calls, one per index, in order. A call made after the
tracker has been released goes through a null pointer; the sequence ends there. -/
def piece_passed_seq {P : Type} (ops : piece_picker P) :
    transfer_state P → List Int → transfer_state P
  | st, [] => st
  | st, index :: rest =>
    match piece_passed ops st index with
    | none => st
    | some st1 => piece_passed_seq ops st1 rest

/-- A sequence of `piece_finished` calls, each with an index and a result code, in order;
it ends at a call made after the tracker has been released. -/
def piece_finished_seq {P : Type} (ops : piece_picker P) :
    transfer_state P → List (Int × Int) → transfer_state P
  | st, [] => st
  | st, r :: rest =>
    match piece_finished ops st r.1 r.2 with
    | none => st
    | some st1 => piece_finished_seq ops st1 rest

/-- The connections on which `second_tick()` was called, in order. -/
def ticked (calls : List transfer_event) : List Nat :=
  calls.filterMap (fun e =>
    match e with
    | transfer_event.second_tick c => some c
    | _ => none)

/-- The disconnects among the calls, in order: connection, reason, second argument. -/
def disconnected (calls : List transfer_event) : List (Nat × error_code × Nat) :=
  calls.filterMap (fun e =>
    match e with
    | transfer_event.disconnect c ec error => some (c, ec, error)
    | _ => none)

/-- A simple piece tracker for the samples: the pieces owned and the pieces downloaded
and waiting for their check. -/
structure sample_picker where
  owned : List Int
  downloaded : List Int
deriving DecidableEq, Repr

/-- The operations of `sample_picker`. -/
def sample_picker_ops : piece_picker sample_picker :=
  { we_have := fun pk i =>
      { owned := if i ∈ pk.owned then pk.owned else pk.owned ++ [i]
        downloaded := pk.downloaded.erase i }
    is_piece_finished := fun pk i => decide (i ∈ pk.downloaded)
    restore_piece := fun pk i => { pk with downloaded := pk.downloaded.erase i }
    num_have := fun pk => (pk.owned.length : Nat) }

/-- A started transfer of four pieces over `filter_state`, with the connections 0 and 1,
of which 1 serves uploads only and 0 has a failing tick. -/
def sample_transfer (pk : Option sample_picker) : transfer_state sample_picker :=
  { policy := filter_state
    m_abort := false
    m_paused := false
    m_seed_mode := false
    m_filesize := 38912000
    PIECE_SIZE := 9728000
    m_picker := pk
    m_connections := [0, 1]
    upload_only := fun c => decide (c = 1)
    second_tick_throws := fun c => decide (c = 0)
    calls := [] }

/-- The sample transfer with all four pieces downloaded and none checked yet. -/
def downloading_transfer : transfer_state sample_picker :=
  sample_transfer (some { owned := [], downloaded := [0, 1, 2, 3] })

/-! ## Pausing and connecting (transfer.cpp) -/

/-- The function `transfer::is_paused` (lines 171-174). -/
def is_paused {P : Type} (st : transfer_state P) : Bool :=
  st.m_paused || st.policy.ses.is_paused

/-- The function `transfer::want_more_peers` (lines 82-85). -/
def want_more_peers {P : Type} (st : transfer_state P) : Bool :=
  !is_paused st && !st.m_abort

/-- The call `insert(c)` on a `std::set` of connection pointers, kept in iteration order. -/
def set_insert (c : Nat) (xs : List Nat) : List Nat :=
  if c ∈ xs then xs else List.orderedInsert (fun a b => a ≤ b) c xs

/-- Modelled from the spec: the constructor `peer_connection(ses, transfer, sock, ip,
peerinfo)` of `peer_connection.cpp`, which is not among the sources; the new connection
is an outgoing one that is not connected yet, for the endpoint `ip`, on the socket `sock`,
"bound to the peer". -/
def new_peer_connection (sock : tcp_socket) (ip : tcp_endpoint) (peerinfo : Nat) :
    peer_connection :=
  { remote := ip
    socket := sock
    is_connecting := true
    is_local := true
    peer_info := some peerinfo }

/-- Modelled from the spec: the part of `peer_connection::disconnect`
(`peer_connection.cpp`, not among the sources) that concerns the session. A connection is
"owned jointly by the session-wide connection registry and the transfer-local connection
set; lifetime = until explicitly disconnected from both", and a disconnect "is always
synchronous from the caller's point of view (state is cleared before the call returns)":
the disconnected connection leaves the session-wide registry. No line of the sources
erases from `m_ses.m_connections`. -/
def close_connection (ses : session_impl) (c : Nat) : session_impl :=
  { ses with m_connections := ses.m_connections.erase c }

/-- The function `transfer::connect_to_peer` (lines 46-80). `peerinfo` is the `peer*`, `c`
the address of the new connection object, `sock` its new socket, and `enqueue_throws`
tells whether `m_ses.m_half_open.enqueue` throws a `std::exception`. The call `c->start()`
(`peer_connection.cpp`, not among the sources) changes nothing the embedding has. In the
catch block the set `m_connections` of the transfer is erased from by the code itself
(lines 72-74); the call `c->disconnect(errors::no_error, 1)` of line 75 is
`transfer_disconnect` together with `close_connection` for the session-wide registry.
The result is `none` when `peerinfo` is not a record of the registry, for then the
embedding has no object to read; otherwise it is the returned flag and the state after
the call. -/
def connect_to_peer {P : Type} (st : transfer_state P) (peerinfo c : Nat)
    (sock : tcp_socket) (enqueue_throws : Bool) : Option (Bool × transfer_state P) :=
  match st.policy.m_peers.find? (fun q => decide (q.ptr = peerinfo)) with
  | none => none
  | some q =>
    let pol1 : policy_state := { st.policy with
      conns := Function.update st.policy.conns c
        (new_peer_connection sock q.endpoint peerinfo)
      ses := { st.policy.ses with
        m_connections := set_insert c st.policy.ses.m_connections }
      m_peers := set_connection st.policy.m_peers peerinfo (some c) }
    let st1 : transfer_state P := { st with
      m_connections := set_insert c st.m_connections
      policy := pol1 }
    if enqueue_throws then
      let st2 : transfer_state P := { st1 with m_connections := st1.m_connections.erase c }
      let st3 := transfer_disconnect st2 c error_code.no_error 1
      some (false, { st3 with
        policy := { st3.policy with ses := close_connection st3.policy.ses c } })
    else
      some (((st1.policy.m_peers.find? (fun q => decide (q.ptr = peerinfo))).bind
        peer.connection).isSome, st1)

/-! ## The known-file collection (file.hpp)

The archive is an external component: the embedding takes its state as a type `A`, the
type of the file list as `L`, and the archive operations as a parameter. -/

/-- The constant `MET_HEADER`. -/
def MET_HEADER : Nat := 0x0E

/-- The constant `MET_HEADER_WITH_LARGEFILES`. -/
def MET_HEADER_WITH_LARGEFILES : Nat := 0x0F

/-- What `save` and `load` can leave with: the `libed2k_exception` for
`errors::known_file_invalid_header`, thrown by `known_file_collection` itself, or an
error of the archive. -/
inductive serialize_exception where
  | known_file_invalid_header
  | archive_error (code : Nat)
deriving DecidableEq, Repr

/-- The operations `ar & x` of an archive with state `A`, for a byte and for the file
list: the outcome (an error code of the archive, or the value read) and the archive
after the operation. -/
structure archive (A L : Type) where
  save_uint8 : A → Nat → Option Nat × A
  load_uint8 : A → Except Nat Nat × A
  save_list : A → L → Option Nat × A
  load_list : A → Except Nat L × A

/-- The structure `known_file_collection` (lines 145-184). -/
structure known_file_collection (L : Type) where
  m_nHeader : Nat
  m_known_file_list : L

/-- The member `known_file_collection::save` (lines 153-164): the exception it leaves
with, if any, and the archive after the call. -/
def known_file_collection.save {A L : Type} (ops : archive A L)
    (kfc : known_file_collection L) (ar : A) : Option serialize_exception × A :=
  if kfc.m_nHeader ≠ MET_HEADER ∧ kfc.m_nHeader ≠ MET_HEADER_WITH_LARGEFILES then
    (some serialize_exception.known_file_invalid_header, ar)
  else
    match ops.save_uint8 ar kfc.m_nHeader with
    | (some e, ar1) => (some (serialize_exception.archive_error e), ar1)
    | (none, ar1) =>
      match ops.save_list ar1 kfc.m_known_file_list with
      | (some e, ar2) => (some (serialize_exception.archive_error e), ar2)
      | (none, ar2) => (none, ar2)

/-- The member `known_file_collection::load` (lines 166-178): the exception it leaves
with, if any, the collection and the archive after the call. -/
def known_file_collection.load {A L : Type} (ops : archive A L)
    (kfc : known_file_collection L) (ar : A) :
    Option serialize_exception × known_file_collection L × A :=
  match ops.load_uint8 ar with
  | (.error e, ar1) => (some (serialize_exception.archive_error e), kfc, ar1)
  | (.ok b, ar1) =>
    if b ≠ MET_HEADER ∧ b ≠ MET_HEADER_WITH_LARGEFILES then
      (some serialize_exception.known_file_invalid_header, { kfc with m_nHeader := b }, ar1)
    else
      match ops.load_list ar1 with
      | (.error e, ar2) =>
        (some (serialize_exception.archive_error e), { kfc with m_nHeader := b }, ar2)
      | (.ok l, ar2) => (none, { m_nHeader := b, m_known_file_list := l }, ar2)

/-- A simple archive for the samples: a list of bytes, read from the front and written
at the back; a file list is a list of bytes preceded by its length. -/
def sample_archive : archive (List Nat) (List Nat) :=
  { save_uint8 := fun ar b => (none, ar ++ [b])
    load_uint8 := fun ar =>
      match ar with
      | [] => (.error 1, [])
      | b :: rest => (.ok b, rest)
    save_list := fun ar l => (none, ar ++ l.length :: l)
    load_list := fun ar =>
      match ar with
      | [] => (.error 1, [])
      | n :: rest =>
        if n ≤ rest.length then (.ok (rest.take n), rest.drop n) else (.error 1, rest) }

/-- The sample transfer, paused or not, aborted or not, in a session paused or not. -/
def flagged_transfer (paused ses_paused abort : Bool) : transfer_state sample_picker :=
  { downloading_transfer with
    m_paused := paused
    m_abort := abort
    policy := { filter_state with ses := { filter_state.ses with is_paused := ses_paused } } }

/-- A transfer over a registry with the one unconnected record of chunk 20, with no
connections yet. -/
def connecting_transfer : transfer_state sample_picker :=
  { downloading_transfer with
    m_connections := []
    policy := sample_state false 8 [peer.create 20 ⟨3, 1⟩ false] sample_conns }

/-- A new socket, not opened yet: its endpoints cannot be read. -/
def unopened_socket : tcp_socket :=
  { local_endpoint := .error 9, remote_endpoint := .error 9 }

/-! ## Further notions used in the statements -/

/-- The registry is strictly sorted by address: every record is smaller, under
`peer_address_compare`, than every record after it; no two records share an address. -/
@[reducible] def strictly_sorted_by_address (xs : List peer) : Prop :=
  xs.Pairwise (fun p q => peer_address_compare p q.address = true)

/-- No two records of the registry have the same endpoint (address and port). -/
@[reducible] def distinct_endpoints (xs : List peer) : Prop :=
  (xs.map peer.endpoint).Nodup

/-- A registry in multiple-connections-per-IP mode with two records for the address 3
and one for the address 5. -/
def multiple_state : policy_state :=
  sample_state true 8
    [peer.create 20 ⟨3, 1⟩ false, peer.create 21 ⟨3, 2⟩ false, peer.create 22 ⟨5, 1⟩ false]
    sample_conns

/-! ## Properties of the searches -/

theorem bound_loop_bounds (go_right : peer → Bool) (xs : List peer) :
    ∀ fuel first len, first ≤ bound_loop go_right xs fuel first len ∧
      bound_loop go_right xs fuel first len ≤ first + len := by
  intro fuel
  induction fuel with
  | zero => intro first len; simp [bound_loop]
  | succ n ih =>
    intro first len
    unfold bound_loop
    by_cases hl : len = 0
    · simp [hl]
    · simp only [hl, if_false]
      cases hm : xs[first + len / 2]? with
      | none => simp
      | some m =>
        simp only []
        have hh : len / 2 < len := Nat.div_lt_self (Nat.pos_of_ne_zero hl) (by decide)
        by_cases hg : go_right m = true
        · simp only [hg, if_true]
          have := ih (first + len / 2 + 1) (len - len / 2 - 1)
          omega
        · simp only [hg]
          have := ih first (len / 2)
          simp only [Bool.false_eq_true, if_false]
          omega

theorem bound_loop_partition (go_right : peer → Bool) (xs : List peer)
    (hmono : ∀ (i j : Nat) (x y : peer), i ≤ j → xs[i]? = some x → xs[j]? = some y →
      go_right y = true → go_right x = true) :
    ∀ fuel first len, len ≤ fuel → first + len ≤ xs.length →
      (∀ (j : Nat) (x : peer), j < first → xs[j]? = some x → go_right x = true) →
      (∀ (j : Nat) (x : peer), first + len ≤ j → xs[j]? = some x → go_right x = false) →
      (∀ (j : Nat) (x : peer), j < bound_loop go_right xs fuel first len → xs[j]? = some x →
        go_right x = true) ∧
      (∀ (j : Nat) (x : peer), bound_loop go_right xs fuel first len ≤ j → xs[j]? = some x →
        go_right x = false) := by
  intro fuel
  induction fuel with
  | zero =>
    intro first len hlen _ h1 h2
    have : len = 0 := by omega
    subst this
    simpa [bound_loop] using And.intro h1 h2
  | succ n ih =>
    intro first len hlen hbound h1 h2
    unfold bound_loop
    by_cases hl : len = 0
    · subst hl
      simpa using And.intro h1 h2
    · simp only [hl, if_false]
      have hh : len / 2 < len := Nat.div_lt_self (Nat.pos_of_ne_zero hl) (by decide)
      have hlt : first + len / 2 < xs.length := by omega
      have hm : xs[first + len / 2]? = some xs[first + len / 2] :=
        List.getElem?_eq_getElem hlt
      rw [hm]
      simp only []
      by_cases hg : go_right xs[first + len / 2] = true
      · simp only [hg, if_true]
        apply ih
        · omega
        · omega
        · intro j x hj hx
          exact hmono j (first + len / 2) x _ (by omega) hx hm hg
        · intro j x hj hx
          exact h2 j x (by omega) hx
      · simp only [hg, Bool.false_eq_true, if_false]
        apply ih
        · omega
        · omega
        · exact h1
        · intro j x hj hx
          cases hgx : go_right x with
          | false => rfl
          | true =>
            exact absurd (hmono (first + len / 2) j _ x hj hm hx hgx) hg

theorem lower_bound_le (xs : List peer) (a : Nat) : lower_bound xs a ≤ xs.length := by
  have := (bound_loop_bounds (fun m => peer_address_compare m a) xs xs.length 0 xs.length).2
  simpa [lower_bound] using this

theorem upper_bound_le (xs : List peer) (a : Nat) : upper_bound xs a ≤ xs.length := by
  have := (bound_loop_bounds (fun m => !address_peer_compare a m) xs xs.length 0
    xs.length).2
  simpa [upper_bound] using this

theorem sorted_getElem?_le {xs : List peer} (hs : sorted_by_address xs) {i j : Nat}
    {x y : peer} (hij : i ≤ j) (hx : xs[i]? = some x) (hy : xs[j]? = some y) :
    x.address ≤ y.address := by
  rcases Nat.eq_or_lt_of_le hij with h | h
  · subst h
    rw [hx] at hy
    cases hy
    exact Nat.le_refl _
  · obtain ⟨hi, rfl⟩ := List.getElem?_eq_some.mp hx
    obtain ⟨hj, rfl⟩ := List.getElem?_eq_some.mp hy
    have := (List.pairwise_iff_getElem.mp hs) i j hi hj h
    simpa [peer_address_compare] using this

/-- On a sorted registry `lower_bound` is the partition point: the records before it have
a smaller address, the records from it on do not. -/
theorem lower_bound_spec {xs : List peer} (hs : sorted_by_address xs) (a : Nat) :
    (∀ (j : Nat) (x : peer), j < lower_bound xs a → xs[j]? = some x → x.address < a) ∧
    (∀ (j : Nat) (x : peer), lower_bound xs a ≤ j → xs[j]? = some x → a ≤ x.address) := by
  have h := bound_loop_partition (fun m => peer_address_compare m a) xs
    (by
      intro i j x y hij hx hy hg
      have := sorted_getElem?_le hs hij hx hy
      simp only [peer_address_compare, decide_eq_true_eq] at hg ⊢
      omega)
    xs.length 0 xs.length (Nat.le_refl _) (by omega)
    (by intro j x hj; omega)
    (by
      intro j x hj hx
      have := (List.getElem?_eq_some.mp hx).1
      omega)
  constructor
  · intro j x hj hx
    have := h.1 j x hj hx
    simpa [peer_address_compare] using this
  · intro j x hj hx
    have := h.2 j x hj hx
    simpa [peer_address_compare] using this

theorem mem_take_index {xs : List peer} {r : Nat} {x : peer} (h : x ∈ xs.take r) :
    ∃ j, j < r ∧ xs[j]? = some x := by
  obtain ⟨j, hj⟩ := List.mem_iff_getElem?.mp h
  rw [List.getElem?_take] at hj
  by_cases hjr : j < r
  · exact ⟨j, hjr, by simpa [hjr] using hj⟩
  · simp [hjr] at hj

theorem mem_drop_index {xs : List peer} {r : Nat} {x : peer} (h : x ∈ xs.drop r) :
    ∃ j, r ≤ j ∧ xs[j]? = some x := by
  obtain ⟨j, hj⟩ := List.mem_iff_getElem?.mp h
  rw [List.getElem?_drop] at hj
  exact ⟨r + j, by omega, hj⟩

/-- Inserting a record at the lower bound of its address keeps a sorted registry sorted. -/
theorem vector_insert_sorted {xs : List peer} (hs : sorted_by_address xs) (p : peer) :
    sorted_by_address (vector_insert xs (lower_bound xs p.address) p) := by
  have hspec := lower_bound_spec hs p.address
  have hsplit : sorted_by_address (xs.take (lower_bound xs p.address) ++
      xs.drop (lower_bound xs p.address)) := by
    rw [List.take_append_drop]; exact hs
  have hparts := List.pairwise_append.mp hsplit
  unfold vector_insert
  refine List.pairwise_append.mpr ⟨hparts.1, ?_, ?_⟩
  · refine List.pairwise_cons.mpr ⟨?_, hparts.2.1⟩
    intro q hq
    obtain ⟨j, hj, hx⟩ := mem_drop_index hq
    have := hspec.2 j q hj hx
    simp only [peer_address_compare, decide_eq_false_iff_not]
    omega
  · intro x hx y hy
    rcases List.mem_cons.mp hy with rfl | hy
    · obtain ⟨j, hj, hxj⟩ := mem_take_index hx
      have := hspec.1 j x hj hxj
      simp only [peer_address_compare, decide_eq_false_iff_not]
      omega
    · exact hparts.2.2 x hx y hy

theorem lookup_single (st : policy_state) (ep : tcp_endpoint)
    (hmode : st.ses.settings.allow_multiple_connections_per_ip = false) :
    (lookup st ep).1 = lower_bound st.m_peers ep.address := by
  unfold lookup
  simp only [hmode, Bool.false_eq_true, if_false]
  cases st.m_peers[lower_bound st.m_peers ep.address]? <;> rfl

theorem add_peer_settings (st : policy_state) (ep : tcp_endpoint) :
    (add_peer st ep).2.ses.settings = st.ses.settings := by
  unfold add_peer
  split
  · rfl
  · simp only []
    split
    · rfl
    · split <;> rfl

theorem add_peer_sorted_step (st : policy_state) (ep : tcp_endpoint)
    (hmode : st.ses.settings.allow_multiple_connections_per_ip = false)
    (hs : sorted_by_address st.m_peers) : sorted_by_address (add_peer st ep).2.m_peers := by
  unfold add_peer
  split
  · exact hs
  · simp only []
    split
    · exact hs
    · split
      · exact hs
      · rw [lookup_single st ep hmode]
        exact vector_insert_sorted hs (peer.create _ ep false)

theorem add_peers_sorted (eps : List tcp_endpoint) :
    ∀ st : policy_state, st.ses.settings.allow_multiple_connections_per_ip = false →
      sorted_by_address st.m_peers → sorted_by_address (add_peers st eps).m_peers := by
  induction eps with
  | nil => intro st _ hs; exact hs
  | cons ep rest ih =>
    intro st hmode hs
    have hstep := add_peer_sorted_step st ep hmode hs
    have hmode1 : (add_peer st ep).2.ses.settings.allow_multiple_connections_per_ip
        = false := by rw [add_peer_settings]; exact hmode
    exact ih (add_peer st ep).2 hmode1 hstep

/-! ## The claims on `add_peer` and `is_connect_candidate` -/

/-- C1. In single-connection-per-IP mode `add_peer` keeps a registry that is sorted by
address sorted, for every endpoint; hence after every prefix of every sequence of
`add_peer` calls that starts from the empty registry the registry is sorted. -/
theorem add_peer_keeps_sorted (st : policy_state)
    (hmode : st.ses.settings.allow_multiple_connections_per_ip = false) :
    (sorted_by_address st.m_peers →
      ∀ ep : tcp_endpoint, sorted_by_address (add_peer st ep).2.m_peers) ∧
    (st.m_peers = [] →
      ∀ (eps : List tcp_endpoint) (n : Nat),
        sorted_by_address (add_peers st (eps.take n)).m_peers) := by
  constructor
  · intro hs ep
    exact add_peer_sorted_step st ep hmode hs
  · intro hnil eps n
    apply add_peers_sorted (eps.take n) st hmode
    rw [hnil]
    exact List.Pairwise.nil

/-- The registry with addresses 3 and 5 is sorted, and stays sorted when 4 is added. -/
theorem add_peer_keeps_sorted_witness :
    sample_sorted_state.ses.settings.allow_multiple_connections_per_ip = false ∧
    sorted_by_address sample_sorted_state.m_peers ∧
    sorted_by_address (add_peer sample_sorted_state ⟨4, 1⟩).2.m_peers :=
  ⟨by decide, by decide,
    (add_peer_keeps_sorted sample_sorted_state (by decide)).1 (by decide) ⟨4, 1⟩⟩

/-! ### Lemmas on the lookup in single-connection-per-IP mode -/

/-- On a sorted registry the lower bound of an address that some record has is the first
record with that address. -/
theorem lower_bound_found {xs : List peer} (hs : sorted_by_address xs) (a : Nat) (q : peer)
    (hq : xs.find? (fun x => decide (x.address = a)) = some q) :
    xs[lower_bound xs a]? = some q := by
  obtain ⟨hqa, l, r, hxs, hl⟩ := List.find?_eq_some.mp hq
  have hqa : q.address = a := by simpa using hqa
  have hspec := lower_bound_spec hs a
  have hk : xs[l.length]? = some q := by
    rw [hxs, List.getElem?_append_right (Nat.le_refl _)]
    simp
  have hge : lower_bound xs a ≤ l.length := by
    by_contra hlt
    have := hspec.1 l.length q (by omega) hk
    omega
  have hklt : l.length < xs.length := by
    rw [hxs]; simp
  have hr : xs[lower_bound xs a]? = some xs[lower_bound xs a] :=
    List.getElem?_eq_getElem (by omega)
  have h1 := hspec.2 _ _ (Nat.le_refl _) hr
  have h2 := sorted_getElem?_le hs hge hr hk
  rcases Nat.eq_or_lt_of_le hge with heq | hlt
  · rw [heq]; exact hk
  · exfalso
    have hmem : xs[lower_bound xs a] ∈ l := by
      have hpre : ∀ k, k < l.length → xs[k]? = l[k]? := by
        intro k hkl
        rw [hxs, List.getElem?_append_left hkl]
      have h3 : l[lower_bound xs a]? = some xs[lower_bound xs a] := by
        rw [← hr, hpre _ hlt]
      exact List.mem_iff_getElem?.mpr ⟨_, h3⟩
    have := hl _ hmem
    simp only [Bool.not_eq_true', decide_eq_false_iff_not] at this
    omega

theorem lookup_single_found (st : policy_state) (ep : tcp_endpoint) (q : peer)
    (hmode : st.ses.settings.allow_multiple_connections_per_ip = false)
    (hs : sorted_by_address st.m_peers)
    (hq : st.m_peers.find? (fun x => decide (x.address = ep.address)) = some q) :
    lookup st ep = (lower_bound st.m_peers ep.address, true) ∧
    st.m_peers[lower_bound st.m_peers ep.address]? = some q := by
  have h := lower_bound_found hs ep.address q hq
  have hqa : q.address = ep.address := by simpa using List.find?_some hq
  refine ⟨?_, h⟩
  unfold lookup
  simp only [hmode, Bool.false_eq_true, if_false, h, hqa, decide_True]

theorem lookup_single_missing (st : policy_state) (ep : tcp_endpoint)
    (hmode : st.ses.settings.allow_multiple_connections_per_ip = false)
    (hq : ∀ q ∈ st.m_peers, q.address ≠ ep.address) :
    lookup st ep = (lower_bound st.m_peers ep.address, false) := by
  unfold lookup
  simp only [hmode, Bool.false_eq_true, if_false]
  cases h : st.m_peers[lower_bound st.m_peers ep.address]? with
  | none => rfl
  | some p =>
    have := hq p (List.mem_iff_getElem?.mpr ⟨_, h⟩)
    simp [this]

theorem add_peer_found (st : policy_state) (ep : tcp_endpoint) (q : peer)
    (hmode : st.ses.settings.allow_multiple_connections_per_ip = false)
    (hs : sorted_by_address st.m_peers)
    (hnb : st.ses.m_ip_filter ep.address &&& ip_filter.blocked = 0)
    (hq : st.m_peers.find? (fun x => decide (x.address = ep.address)) = some q) :
    add_peer st ep = (some q.ptr, st) := by
  obtain ⟨h1, h2⟩ := lookup_single_found st ep q hmode hs hq
  unfold add_peer
  simp [hnb, h1, h2]

theorem add_peer_missing (st : policy_state) (ep : tcp_endpoint) (p : Nat) (pool : peer_pool)
    (hmode : st.ses.settings.allow_multiple_connections_per_ip = false)
    (hnb : st.ses.m_ip_filter ep.address &&& ip_filter.blocked = 0)
    (hq : ∀ q ∈ st.m_peers, q.address ≠ ep.address)
    (hpool : st.ses.m_peer_pool.malloc = (some p, pool)) :
    add_peer st ep = (some p, { st with
      ses := { st.ses with m_peer_pool := pool.set_next_size 500 }
      m_peers := vector_insert st.m_peers (lower_bound st.m_peers ep.address)
        (peer.create p ep false) }) := by
  have h1 := lookup_single_missing st ep hmode hq
  unfold add_peer
  simp [hnb, h1, hpool]

theorem malloc_none (pool pool1 : peer_pool) (h : pool.malloc = (none, pool1)) :
    pool1 = pool := by
  unfold peer_pool.malloc at h
  split at h
  · cases h; rfl
  · cases h

theorem add_peer_twice (st : policy_state) (ep : tcp_endpoint)
    (hmode : st.ses.settings.allow_multiple_connections_per_ip = false)
    (hs : sorted_by_address st.m_peers)
    (hnb : st.ses.m_ip_filter ep.address &&& ip_filter.blocked = 0) :
    (add_peer (add_peer st ep).2 ep).1 = (add_peer st ep).1 ∧
    (add_peer (add_peer st ep).2 ep).2.m_peers = (add_peer st ep).2.m_peers := by
  cases hf : st.m_peers.find? (fun x => decide (x.address = ep.address)) with
  | some q =>
    have h := add_peer_found st ep q hmode hs hnb hf
    rw [h]
    simp only []
    rw [h]
    exact ⟨rfl, rfl⟩
  | none =>
    have hq : ∀ q ∈ st.m_peers, q.address ≠ ep.address := by
      intro q hmem
      simpa using List.find?_eq_none.mp hf q hmem
    have h1 := lookup_single_missing st ep hmode hq
    cases hpool : st.ses.m_peer_pool.malloc with
    | mk res pool =>
      cases res with
      | none =>
        have hp := malloc_none _ _ hpool
        subst hp
        have h : add_peer st ep = (none, st) := by
          unfold add_peer
          simp [hnb, h1, hpool]
        rw [h]
        simp only []
        rw [h]
        exact ⟨rfl, rfl⟩
      | some p =>
        have h := add_peer_missing st ep p pool hmode hnb hq hpool
        rw [h]
        simp only []
        have hfind : (vector_insert st.m_peers (lower_bound st.m_peers ep.address)
            (peer.create p ep false)).find? (fun x => decide (x.address = ep.address))
            = some (peer.create p ep false) := by
          unfold vector_insert
          rw [List.find?_append]
          have hnone : (st.m_peers.take (lower_bound st.m_peers ep.address)).find?
              (fun x => decide (x.address = ep.address)) = none := by
            apply List.find?_eq_none.mpr
            intro x hx
            have := hq x (List.mem_of_mem_take hx)
            simpa using this
          rw [hnone]
          simp [peer.create, peer.address]
        have h2 := add_peer_found
          { st with
            ses := { st.ses with m_peer_pool := pool.set_next_size 500 }
            m_peers := vector_insert st.m_peers (lower_bound st.m_peers ep.address)
              (peer.create p ep false) }
          ep (peer.create p ep false) hmode
          (vector_insert_sorted hs (peer.create p ep false)) hnb hfind
        rw [h2]
        exact ⟨rfl, rfl⟩

/-- C3. A peer is a connect candidate exactly when it has no connection pointer and the
session-wide connection registry has no connection for its endpoint; so it is not one
when its connection pointer is set, and not one when the session has a connection for
its endpoint. -/
theorem is_connect_candidate_iff (st : policy_state) (p : peer) :
    (is_connect_candidate st p = true ↔
      p.connection = none ∧ find_peer_connection st p.endpoint = none) ∧
    (p.connection ≠ none → is_connect_candidate st p = false) ∧
    (find_peer_connection st p.endpoint ≠ none → is_connect_candidate st p = false) := by
  unfold is_connect_candidate
  cases hc : p.connection <;> cases hf : find_peer_connection st p.endpoint <;> simp

/-- C9. When the IP filter reports the address of `ep` as blocked, `add_peer` returns no
peer, hands exactly one `peer_blocked` alert with the transfer handle and the address to
the alert sink, and leaves the registry (and the peer pool) as they were, in either mode
and whatever the registry holds. -/
theorem add_peer_blocked (st : policy_state) (ep : tcp_endpoint)
    (hb : st.ses.m_ip_filter ep.address &&& ip_filter.blocked ≠ 0) :
    (add_peer st ep).1 = none ∧
    (add_peer st ep).2.ses.m_alerts =
      st.ses.m_alerts ++ [alert.peer_blocked st.handle ep.address] ∧
    (add_peer st ep).2.m_peers = st.m_peers ∧
    (add_peer st ep).2.ses.m_peer_pool = st.ses.m_peer_pool := by
  unfold add_peer
  simp [hb, post_alert_should]

/-- C10. In single-connection-per-IP mode, on a sorted registry and for an endpoint that is
not blocked: when a record with the address exists, `add_peer` returns the first such
record and changes nothing; when none exists and the pool provides a chunk, the registry
gains exactly one record, with the endpoint and no connection, which is returned; and a
second `add_peer` of the same endpoint returns the same record and leaves the registry as
the first call left it. -/
theorem add_peer_dedup (st : policy_state) (ep : tcp_endpoint)
    (hmode : st.ses.settings.allow_multiple_connections_per_ip = false)
    (hs : sorted_by_address st.m_peers)
    (hnb : st.ses.m_ip_filter ep.address &&& ip_filter.blocked = 0) :
    (∀ q : peer, st.m_peers.find? (fun x => decide (x.address = ep.address)) = some q →
      add_peer st ep = (some q.ptr, st)) ∧
    (∀ (p : Nat) (pool : peer_pool), (∀ q ∈ st.m_peers, q.address ≠ ep.address) →
      st.ses.m_peer_pool.malloc = (some p, pool) →
      (add_peer st ep).1 = some p ∧
      ∃ l r, st.m_peers = l ++ r ∧
        (add_peer st ep).2.m_peers =
          l ++ { ptr := p, endpoint := ep, connectable := false, connection := none } :: r) ∧
    ((add_peer (add_peer st ep).2 ep).1 = (add_peer st ep).1 ∧
      (add_peer (add_peer st ep).2 ep).2.m_peers = (add_peer st ep).2.m_peers) := by
  refine ⟨?_, ?_, add_peer_twice st ep hmode hs hnb⟩
  · intro q hq
    exact add_peer_found st ep q hmode hs hnb hq
  · intro p pool hq hpool
    rw [add_peer_missing st ep p pool hmode hnb hq hpool]
    refine ⟨rfl, st.m_peers.take (lower_bound st.m_peers ep.address),
      st.m_peers.drop (lower_bound st.m_peers ep.address), ?_, rfl⟩
    exact (List.take_append_drop _ _).symm

/-! ### Lemmas on `find_if`, the lookup in either mode, and `disconnect` -/

theorem find_if_loop_spec (pred : peer → Bool) (xs : List peer) :
    ∀ n first last, find_if_loop pred xs n first last = last ∨
      ∃ p, xs[find_if_loop pred xs n first last]? = some p ∧ pred p = true := by
  intro n
  induction n with
  | zero => intro first last; exact Or.inl rfl
  | succ n ih =>
    intro first last
    unfold find_if_loop
    cases h : xs[first]? with
    | none => exact Or.inl rfl
    | some p =>
      simp only []
      by_cases hp : pred p = true
      · simp only [hp, if_true]
        exact Or.inr ⟨p, h, hp⟩
      · simp only [hp, Bool.false_eq_true, if_false]
        exact ih (first + 1) last

/-- When the lookup reports `found`, the iterator is at a record that matches the endpoint
under the dedup rule. -/
theorem lookup_found (st : policy_state) (ep : tcp_endpoint)
    (h : (lookup st ep).2 = true) :
    ∃ i, st.m_peers[(lookup st ep).1]? = some i ∧
      dedup_match st.ses.settings.allow_multiple_connections_per_ip ep i = true := by
  unfold lookup at h ⊢
  cases hmode : st.ses.settings.allow_multiple_connections_per_ip with
  | true =>
    simp only [hmode, if_true] at h ⊢
    rcases find_if_loop_spec (match_peer_endpoint ep) st.m_peers
      ((find_peers st.m_peers ep.address).2 - (find_peers st.m_peers ep.address).1)
      (find_peers st.m_peers ep.address).1 (find_peers st.m_peers ep.address).2 with hl | hr
    · simp [find_if, hl] at h
    · obtain ⟨p, hp1, hp2⟩ := hr
      refine ⟨p, hp1, ?_⟩
      simpa [dedup_match, match_peer_endpoint] using hp2
  | false =>
    simp only [hmode, Bool.false_eq_true, if_false] at h ⊢
    cases hx : st.m_peers[lower_bound st.m_peers ep.address]? with
    | none => simp [hx] at h
    | some p =>
      simp only [hx] at h ⊢
      exact ⟨p, rfl, by simpa [dedup_match] using h⟩

/-- When the lookup reports that nothing was found, the iterator is a valid insertion
position. -/
theorem lookup_missing_le (st : policy_state) (ep : tcp_endpoint)
    (h : (lookup st ep).2 = false) : (lookup st ep).1 ≤ st.m_peers.length := by
  unfold lookup at h ⊢
  cases hmode : st.ses.settings.allow_multiple_connections_per_ip with
  | true =>
    simp only [hmode, if_true] at h ⊢
    have h1 : find_if (match_peer_endpoint ep) st.m_peers (find_peers st.m_peers ep.address).1
        (find_peers st.m_peers ep.address).2 = (find_peers st.m_peers ep.address).2 := by
      simpa using h
    rw [h1]
    exact upper_bound_le _ _
  | false =>
    simp only [hmode, Bool.false_eq_true, if_false]
    have := lower_bound_le st.m_peers ep.address
    cases st.m_peers[lower_bound st.m_peers ep.address]? <;> exact this

/-- When no record matches the endpoint under the dedup rule, the lookup finds nothing. -/
theorem lookup_no_match (st : policy_state) (ep : tcp_endpoint)
    (h : ∀ q ∈ st.m_peers,
      dedup_match st.ses.settings.allow_multiple_connections_per_ip ep q = false) :
    (lookup st ep).2 = false := by
  cases hf : (lookup st ep).2 with
  | false => rfl
  | true =>
    obtain ⟨i, hi, hm⟩ := lookup_found st ep hf
    have := h i (List.mem_iff_getElem?.mpr ⟨_, hi⟩)
    rw [this] at hm
    cases hm

theorem only_cleared_refl (xs : List peer) : only_cleared xs xs := by
  unfold only_cleared
  induction xs with
  | nil => exact List.Forall₂.nil
  | cons x xs ih => exact List.Forall₂.cons (Or.inl rfl) ih

theorem only_cleared_trans {xs ys zs : List peer} (h1 : only_cleared xs ys)
    (h2 : only_cleared ys zs) : only_cleared xs zs := by
  unfold only_cleared at *
  induction h1 generalizing zs with
  | nil => cases h2; exact List.Forall₂.nil
  | cons hab _ ih =>
    cases h2 with
    | cons hbc hrest =>
      refine List.Forall₂.cons ?_ (ih hrest)
      rcases hab with rfl | rfl
      · exact hbc
      · rcases hbc with rfl | rfl
        · exact Or.inr rfl
        · exact Or.inr rfl

theorem only_cleared_assign (xs : List peer) (p : Nat) :
    only_cleared xs (set_connection xs p none) := by
  unfold only_cleared set_connection
  induction xs with
  | nil => exact List.Forall₂.nil
  | cons x xs ih =>
    refine List.Forall₂.cons ?_ ih
    by_cases hx : x.ptr = p
    · simp [hx]
    · simp [hx]

theorem only_cleared_getElem? {xs ys : List peer} (h : only_cleared xs ys) (k : Nat) :
    (xs[k]? = none ∧ ys[k]? = none) ∨
    ∃ p q, xs[k]? = some p ∧ ys[k]? = some q ∧ (q = p ∨ q = { p with connection := none }) := by
  unfold only_cleared at h
  induction h generalizing k with
  | nil => exact Or.inl ⟨rfl, rfl⟩
  | cons hab _ ih =>
    cases k with
    | zero => exact Or.inr ⟨_, _, by simp, by simp, hab⟩
    | succ k => simpa using ih k

@[simp] theorem disconnect_disconnects (st : policy_state) (c : Nat) (ec : error_code)
    (n : Nat) : (disconnect st c ec n).disconnects = st.disconnects ++ [(c, ec, n)] := by
  unfold disconnect set_peer connection_closed
  cases (st.conns c).peer_info <;> rfl

@[simp] theorem disconnect_ses (st : policy_state) (c : Nat) (ec : error_code) (n : Nat) :
    (disconnect st c ec n).ses = st.ses := by
  unfold disconnect set_peer connection_closed
  cases (st.conns c).peer_info <;> rfl

theorem disconnect_conns (st : policy_state) (c : Nat) (ec : error_code) (n : Nat) :
    (disconnect st c ec n).conns =
      Function.update st.conns c { st.conns c with peer_info := none } := by
  unfold disconnect set_peer connection_closed
  cases (st.conns c).peer_info <;> rfl

theorem disconnect_m_peers (st : policy_state) (c : Nat) (ec : error_code) (n : Nat) :
    (disconnect st c ec n).m_peers = (connection_closed st c).m_peers := by
  unfold disconnect set_peer
  rfl

theorem disconnect_only_cleared (st : policy_state) (c : Nat) (ec : error_code) (n : Nat) :
    only_cleared st.m_peers (disconnect st c ec n).m_peers := by
  rw [disconnect_m_peers]
  unfold connection_closed
  cases (st.conns c).peer_info with
  | none => exact only_cleared_refl _
  | some p => exact only_cleared_assign _ p

theorem disconnect_unbound (st : policy_state) (c : Nat) (ec : error_code) (n : Nat)
    (h : (st.conns c).peer_info = none) : (disconnect st c ec n).m_peers = st.m_peers := by
  rw [disconnect_m_peers]
  unfold connection_closed
  rw [h]

/-- Disconnecting a connection leaves alone every record it does not refer to. -/
theorem disconnect_keeps (st : policy_state) (c : Nat) (ec : error_code) (n k : Nat)
    (i : peer) (hi : st.m_peers[k]? = some i) (h : (st.conns c).peer_info ≠ some i.ptr) :
    (disconnect st c ec n).m_peers[k]? = some i := by
  rw [disconnect_m_peers]
  unfold connection_closed
  cases hp : (st.conns c).peer_info with
  | none => exact hi
  | some p =>
    simp only [set_connection, List.getElem?_map, hi, Option.map_some']
    have : i.ptr ≠ p := by
      intro heq
      apply h
      rw [hp, heq]
    simp [this]

/-- After a disconnect the record at a position is the old one, possibly with its
connection pointer cleared. -/
theorem disconnect_getElem? (st : policy_state) (c : Nat) (ec : error_code) (n k : Nat)
    (i : peer) (hi : st.m_peers[k]? = some i) :
    ∃ j, (disconnect st c ec n).m_peers[k]? = some j ∧
      (j = i ∨ j = { i with connection := none }) := by
  rcases only_cleared_getElem? (disconnect_only_cleared st c ec n) k with ⟨h1, _⟩ | h
  · rw [hi] at h1; cases h1
  · obtain ⟨p, q, hp, hq, hpq⟩ := h
    rw [hi] at hp
    cases hp
    exact ⟨q, hq, hpq⟩

@[simp] theorem bind_connection_disconnects (st : policy_state) (it : Nat) (i : peer)
    (c : Nat) : (bind_connection st it i c).disconnects = st.disconnects := rfl

theorem bind_connection_peer_info (st : policy_state) (it : Nat) (i : peer) (c : Nat) :
    ((bind_connection st it i c).conns c).peer_info = some i.ptr := by
  simp [bind_connection, set_peer]

theorem bind_connection_getElem? (st : policy_state) (it : Nat) (i j : peer) (c : Nat)
    (hj : st.m_peers[it]? = some j) :
    (bind_connection st it i c).m_peers[it]? = some { j with connection := some c } := by
  simp [bind_connection, set_peer, assign_connection_at, hj]

theorem vector_insert_getElem? (xs : List peer) (it : Nat) (p : peer)
    (h : it ≤ xs.length) : (vector_insert xs it p)[it]? = some p := by
  unfold vector_insert
  rw [List.getElem?_append_right (by simp [h])]
  simp [Nat.min_eq_left h]

/-- The body of `new_connection` when the lookup finds a record with a live connection. -/
theorem new_connection_live (st : policy_state) (c it e : Nat) (i : peer)
    (hlook : lookup st (st.conns c).remote = (it, true))
    (hi : st.m_peers[it]? = some i) (he : i.connection = some e) :
    new_connection st c =
      if (self_connection_test (st.conns e).socket (st.conns c).socket).2.1.failed then
        (false, disconnect st c
          (self_connection_test (st.conns e).socket (st.conns c).socket).2.1 0)
      else if (self_connection_test (st.conns e).socket (st.conns c).socket).1 then
        match ((disconnect st c error_code.self_connection 1).m_peers[it]?).bind
            peer.connection with
        | none => (false, disconnect st c error_code.self_connection 1)
        | some e1 => (false, disconnect (disconnect st c error_code.self_connection 1) e1
            error_code.self_connection 1)
      else if (self_connection_test (st.conns e).socket (st.conns c).socket).2.2.failed then
        (true, bind_connection (disconnect st e
          (self_connection_test (st.conns e).socket (st.conns c).socket).2.2 0) it i c)
      else if !(st.conns e).is_connecting || (st.conns c).is_local then
        (false, disconnect st c error_code.duplicate_peer_id 0)
      else
        (true, bind_connection (disconnect st e error_code.duplicate_peer_id 0) it i c) := by
  unfold new_connection
  simp only [hlook, if_true, hi, he]

theorem only_cleared_maps {xs ys : List peer} (h : only_cleared xs ys) :
    ys.length = xs.length ∧ ys.map peer.ptr = xs.map peer.ptr ∧
      ys.map peer.endpoint = xs.map peer.endpoint := by
  unfold only_cleared at h
  induction h with
  | nil => exact ⟨rfl, rfl, rfl⟩
  | cons hab _ ih =>
    obtain ⟨h1, h2, h3⟩ := ih
    rcases hab with rfl | rfl <;> simp [h1, h2, h3]

/-- A record that refers to the connection `c` in a registry that arose by clearing
connection pointers was there before, at the same position, referring to `c`. -/
theorem only_cleared_reference {xs ys : List peer} (h : only_cleared xs ys) (k c : Nat)
    (q : peer) (hq : ys[k]? = some q) (hc : q.connection = some c) : xs[k]? = some q := by
  rcases only_cleared_getElem? h k with ⟨_, h2⟩ | ⟨p, q1, hp, hq1, hpq⟩
  · rw [hq] at h2; cases h2
  · rw [hq] at hq1
    cases hq1
    rcases hpq with rfl | rfl
    · exact hp
    · cases hc

theorem dedup_match_connection (m : Bool) (ep : tcp_endpoint) (p : peer) (x : Option Nat) :
    dedup_match m ep { p with connection := x } = dedup_match m ep p := rfl

/-- When `new_connection` fails, the registry is the old one up to cleared connection
pointers. -/
theorem new_connection_false_cleared (st : policy_state) (c : Nat)
    (h : (new_connection st c).1 = false) :
    only_cleared st.m_peers (new_connection st c).2.m_peers := by
  cases hl : lookup st (st.conns c).remote with
  | mk it found =>
    cases found with
    | true =>
      have hf : (lookup st (st.conns c).remote).2 = true := by rw [hl]
      obtain ⟨i, hi, _⟩ := lookup_found st _ hf
      rw [hl] at hi
      simp only [] at hi
      cases he : i.connection with
      | none =>
        have heq : new_connection st c = (true, bind_connection st it i c) := by
          unfold new_connection
          simp only [hl, if_true, hi, he]
        rw [heq] at h
        cases h
      | some e =>
        rw [new_connection_live st c it e i hl hi he] at h ⊢
        split at h
        · rw [if_pos (by assumption)]
          exact disconnect_only_cleared _ _ _ _
        · rw [if_neg (by assumption)]
          split at h
          · rw [if_pos (by assumption)]
            split
            · exact disconnect_only_cleared _ _ _ _
            · exact only_cleared_trans (disconnect_only_cleared _ _ _ _)
                (disconnect_only_cleared _ _ _ _)
          · rw [if_neg (by assumption)]
            split at h
            · cases h
            · rw [if_neg (by assumption)]
              split at h
              · rw [if_pos (by assumption)]
                exact disconnect_only_cleared _ _ _ _
              · cases h
    | false =>
      unfold new_connection at h ⊢
      simp only [hl, Bool.false_eq_true, if_false] at h ⊢
      split at h
      · rw [if_pos (by assumption)]
        exact disconnect_only_cleared _ _ _ _
      · rw [if_neg (by assumption)]
        split at h
        · exact only_cleared_refl _
        · cases h

/-- When `new_connection` succeeds, a record that matches the remote endpoint under the
dedup rule refers to the connection, and the connection refers to that record. -/
theorem new_connection_true_bound (st : policy_state) (c : Nat)
    (h : (new_connection st c).1 = true) :
    ∃ (it : Nat) (p : peer), (new_connection st c).2.m_peers[it]? = some p ∧
      dedup_match st.ses.settings.allow_multiple_connections_per_ip
        (st.conns c).remote p = true ∧
      p.connection = some c ∧
      ((new_connection st c).2.conns c).peer_info = some p.ptr := by
  cases hl : lookup st (st.conns c).remote with
  | mk it found =>
    cases found with
    | true =>
      have hf : (lookup st (st.conns c).remote).2 = true := by rw [hl]
      obtain ⟨i, hi, hm⟩ := lookup_found st _ hf
      rw [hl] at hi
      simp only [] at hi
      have hbound : ∀ s : policy_state, (∃ j, s.m_peers[it]? = some j ∧
          (j = i ∨ j = { i with connection := none })) →
          ∃ (k : Nat) (p : peer), (bind_connection s it i c).m_peers[k]? = some p ∧
            dedup_match st.ses.settings.allow_multiple_connections_per_ip
              (st.conns c).remote p = true ∧
            p.connection = some c ∧
            ((bind_connection s it i c).conns c).peer_info = some p.ptr := by
        intro s hs
        obtain ⟨j, hj, hji⟩ := hs
        refine ⟨it, { j with connection := some c }, bind_connection_getElem? s it i j c hj,
          ?_, rfl, ?_⟩
        · rw [dedup_match_connection]
          rcases hji with rfl | rfl
          · exact hm
          · rw [dedup_match_connection]; exact hm
        · rw [bind_connection_peer_info]
          rcases hji with rfl | rfl <;> rfl
      cases he : i.connection with
      | none =>
        have heq : new_connection st c = (true, bind_connection st it i c) := by
          unfold new_connection
          simp only [hl, if_true, hi, he]
        rw [heq]
        exact hbound st ⟨i, hi, Or.inl rfl⟩
      | some e =>
        rw [new_connection_live st c it e i hl hi he] at h ⊢
        split at h
        · cases h
        · rw [if_neg (by assumption)]
          split at h
          · exfalso
            split at h <;> cases h
          · rw [if_neg (by assumption)]
            split at h
            · rw [if_pos (by assumption)]
              exact hbound _ (disconnect_getElem? st e _ _ it i hi)
            · rw [if_neg (by assumption)]
              split at h
              · cases h
              · rw [if_neg (by assumption)]
                exact hbound _ (disconnect_getElem? st e _ _ it i hi)
    | false =>
      have hf : (lookup st (st.conns c).remote).2 = false := by rw [hl]
      have hle := lookup_missing_le st _ hf
      rw [hl] at hle
      simp only [] at hle
      unfold new_connection at h ⊢
      simp only [hl, Bool.false_eq_true, if_false] at h ⊢
      split at h
      · cases h
      · rw [if_neg (by assumption)]
        cases hpool : st.ses.m_peer_pool.malloc with
        | mk res pool =>
          cases res with
          | none =>
            rw [hpool] at h
            cases h
          | some p =>
            simp only []
            refine ⟨it, { peer.create p (st.conns c).remote false with connection := some c },
              ?_, ?_, rfl, ?_⟩
            · apply bind_connection_getElem?
              exact vector_insert_getElem? st.m_peers it _ hle
            · cases st.ses.settings.allow_multiple_connections_per_ip <;>
                simp [dedup_match, peer.create, peer.address]
            · rw [bind_connection_peer_info]

/-! ## The claims on `new_connection` -/

/-- C2. When no record matches the remote endpoint of `c` under the dedup rule and the
registry has at least `max_peerlist_size` records, `new_connection` disconnects `c` with
`too_many_connections` and returns false; the registry keeps its size and the same records
(the same pool chunks with the same endpoints, in the same order), and it is unchanged
altogether when `c` is not attached to a peer yet. -/
theorem new_connection_registry_full (st : policy_state) (c : Nat)
    (hnf : ∀ q ∈ st.m_peers,
      dedup_match st.ses.settings.allow_multiple_connections_per_ip
        (st.conns c).remote q = false)
    (hcap : st.ses.settings.max_peerlist_size ≤ (st.m_peers.length : Int)) :
    (new_connection st c).1 = false ∧
    (new_connection st c).2.disconnects =
      st.disconnects ++ [(c, error_code.too_many_connections, 0)] ∧
    (new_connection st c).2.m_peers.length = st.m_peers.length ∧
    (new_connection st c).2.m_peers.map peer.ptr = st.m_peers.map peer.ptr ∧
    (new_connection st c).2.m_peers.map peer.endpoint = st.m_peers.map peer.endpoint ∧
    ((st.conns c).peer_info = none → (new_connection st c).2.m_peers = st.m_peers) := by
  have hf := lookup_no_match st (st.conns c).remote hnf
  have heq : new_connection st c =
      (false, disconnect st c error_code.too_many_connections 0) := by
    unfold new_connection
    simp only [hf, Bool.false_eq_true, if_false]
    rw [if_pos hcap]
  rw [heq]
  have hm := only_cleared_maps (disconnect_only_cleared st c
    error_code.too_many_connections 0)
  exact ⟨rfl, disconnect_disconnects _ _ _ _, hm.1, hm.2.1, hm.2.2,
    disconnect_unbound st c _ _⟩

/-- C8. When `new_connection` returns true, the registry has a record that matches the
remote endpoint of `c` under the dedup rule, whose connection pointer is `c` and to which
`c` refers back. When it returns false, the registry has the records it had, and every
record that refers to `c` afterwards referred to `c` before the call. -/
theorem new_connection_binds (st : policy_state) (c : Nat) :
    ((new_connection st c).1 = true →
      ∃ (it : Nat) (p : peer), (new_connection st c).2.m_peers[it]? = some p ∧
        dedup_match st.ses.settings.allow_multiple_connections_per_ip
          (st.conns c).remote p = true ∧
        p.connection = some c ∧
        ((new_connection st c).2.conns c).peer_info = some p.ptr) ∧
    ((new_connection st c).1 = false →
      (new_connection st c).2.m_peers.length = st.m_peers.length ∧
      ∀ (k : Nat) (q : peer), (new_connection st c).2.m_peers[k]? = some q →
        q.connection = some c → st.m_peers[k]? = some q) := by
  constructor
  · exact new_connection_true_bound st c
  · intro h
    have hc := new_connection_false_cleared st c h
    refine ⟨(only_cleared_maps hc).1, ?_⟩
    intro k q hq hqc
    exact only_cleared_reference hc k c q hq hqc

theorem self_connection_test_symm (a b : tcp_socket) :
    (self_connection_test a b).1 = (self_connection_test b a).1 := by
  unfold self_connection_test
  by_cases h1 : (read_endpoint a.remote_endpoint).1 = (read_endpoint b.local_endpoint).1 <;>
  by_cases h2 : (read_endpoint b.remote_endpoint).1 = (read_endpoint a.local_endpoint).1
  · simp [h1, h2]
  · simp [h1, h2]
  · simp [h1, h2]
  · have h1' : ¬ (read_endpoint b.local_endpoint).1 = (read_endpoint a.remote_endpoint).1 :=
      fun h => h1 h.symm
    have h2' : ¬ (read_endpoint a.local_endpoint).1 = (read_endpoint b.remote_endpoint).1 :=
      fun h => h2 h.symm
    simp [h1, h2, h1', h2']

theorem cross_match_test (a b : tcp_socket) (h : cross_match a b = true) :
    (self_connection_test a b).1 = true := by
  unfold cross_match endpoints_agree at h
  unfold self_connection_test read_endpoint
  cases h1 : a.remote_endpoint <;> cases h2 : b.local_endpoint <;>
    cases h3 : a.local_endpoint <;> cases h4 : b.remote_endpoint <;>
    simp_all <;> split <;> simp_all

/-- C4, as the code has it. When the matching record holds a live connection `e`, the reads
of the socket of `c` leave no error and the endpoint comparison reports a cross-match
(`c` not being attached to that record already), both `c` and `e` are disconnected with
`self_connection` and the call returns false. The comparison reports a cross-match
whenever the endpoints read cross-match, and its verdict is the same when the two
connections exchange their roles. -/
theorem new_connection_self_connection (st : policy_state) (c it e : Nat) (i : peer)
    (hlook : lookup st (st.conns c).remote = (it, true))
    (hi : st.m_peers[it]? = some i) (he : i.connection = some e)
    (hec1 : (self_connection_test (st.conns e).socket (st.conns c).socket).2.1.failed
      = false)
    (hself : (self_connection_test (st.conns e).socket (st.conns c).socket).1 = true)
    (hc : (st.conns c).peer_info ≠ some i.ptr) :
    (new_connection st c).1 = false ∧
    (new_connection st c).2.disconnects =
      st.disconnects ++
        [(c, error_code.self_connection, 1), (e, error_code.self_connection, 1)] ∧
    (∀ a b : tcp_socket, cross_match a b = true → (self_connection_test a b).1 = true) ∧
    (∀ a b : tcp_socket, (self_connection_test a b).1 = (self_connection_test b a).1) := by
  have hkeep := disconnect_keeps st c error_code.self_connection 1 it i hi hc
  rw [new_connection_live st c it e i hlook hi he]
  simp only [hec1, hself, Bool.false_eq_true, if_false, if_true, hkeep, Option.some_bind, he]
  exact ⟨trivial, by simp, cross_match_test, self_connection_test_symm⟩

/-- The self-connection sample: both connections are disconnected with `self_connection`. -/
theorem new_connection_self_connection_witness :
    lookup self_connection_state (self_connection_state.conns 0).remote = (0, true) ∧
    (new_connection self_connection_state 0).1 = false ∧
    (new_connection self_connection_state 0).2.disconnects =
      [(0, error_code.self_connection, 1), (1, error_code.self_connection, 1)] :=
  have h := new_connection_self_connection self_connection_state 0 0 1
    { ptr := 20, endpoint := ⟨2, 200⟩, connectable := false, connection := some 1 }
    (by decide) (by decide) rfl (by decide) (by decide) (by decide)
  ⟨by decide, h.1, h.2.1⟩

/-- C4 fails as stated: the endpoints read cross-match (the local endpoint of the existing
connection is the remote endpoint of the new one), but the read of the new connection's
local endpoint fails; the new connection is disconnected with that system error, the
existing one is not disconnected, and nothing is resolved as `self_connection`. -/
theorem new_connection_self_connection_counterexample :
    lookup unreadable_local_state (unreadable_local_state.conns 0).remote = (0, true) ∧
    (unreadable_local_state.m_peers[0]?).bind peer.connection = some 1 ∧
    cross_match (unreadable_local_state.conns 1).socket
      (unreadable_local_state.conns 0).socket = true ∧
    (new_connection unreadable_local_state 0).2.disconnects =
      [(0, error_code.system 105, 0)] ∧
    ¬ ((0, error_code.self_connection, 1) ∈
        (new_connection unreadable_local_state 0).2.disconnects ∧
      (1, error_code.self_connection, 1) ∈
        (new_connection unreadable_local_state 0).2.disconnects) := by
  decide

/-- C5, as the code has it. When the matching record holds a live connection `e` that is
still connecting, the endpoints are read without error, there is no self-connection and
`c` is a local (outgoing) connection, the new connection `c` is the loser: it is
disconnected with `duplicate_peer_id`, the call returns false, and `e` stays on the
record (`c` not being attached to that record already). -/
theorem new_connection_local_loses (st : policy_state) (c it e : Nat) (i : peer)
    (hlook : lookup st (st.conns c).remote = (it, true))
    (hi : st.m_peers[it]? = some i) (he : i.connection = some e)
    (hec1 : (self_connection_test (st.conns e).socket (st.conns c).socket).2.1
      = error_code.no_error)
    (hec2 : (self_connection_test (st.conns e).socket (st.conns c).socket).2.2
      = error_code.no_error)
    (hself : (self_connection_test (st.conns e).socket (st.conns c).socket).1 = false)
    (_hconn : (st.conns e).is_connecting = true)
    (hloc : (st.conns c).is_local = true) :
    (new_connection st c).1 = false ∧
    (new_connection st c).2.disconnects =
      st.disconnects ++ [(c, error_code.duplicate_peer_id, 0)] ∧
    ((st.conns c).peer_info ≠ some i.ptr →
      (new_connection st c).2.m_peers[it]? = some i) := by
  rw [new_connection_live st c it e i hlook hi he]
  simp only [hec1, hec2, hself, hloc, error_code.failed, Bool.false_eq_true, if_false,
    Bool.or_true, if_true]
  exact ⟨trivial, by simp, fun hc => disconnect_keeps st c _ _ it i hi hc⟩

/-- The local-duplicate sample: the new outgoing connection is the one disconnected. -/
theorem new_connection_local_loses_witness :
    (local_duplicate_state.conns 1).is_connecting = true ∧
    (local_duplicate_state.conns 0).is_local = true ∧
    (new_connection local_duplicate_state 0).1 = false ∧
    (new_connection local_duplicate_state 0).2.disconnects =
      [(0, error_code.duplicate_peer_id, 0)] :=
  have h := new_connection_local_loses local_duplicate_state 0 0 1
    { ptr := 20, endpoint := ⟨2, 200⟩, connectable := false, connection := some 1 }
    (by decide) (by decide) rfl (by decide) (by decide) (by decide) (by decide) (by decide)
  ⟨by decide, by decide, h.1, h.2.1⟩

/-- C5 fails as stated: with an existing connection that is still connecting, error-free
reads, no self-connection and a local new connection, the call returns false, the only
disconnect is that of the new connection, and the record still refers to the existing
connection. -/
theorem new_connection_local_counterexample :
    lookup local_duplicate_state (local_duplicate_state.conns 0).remote = (0, true) ∧
    (local_duplicate_state.m_peers[0]?).bind peer.connection = some 1 ∧
    (local_duplicate_state.conns 1).is_connecting = true ∧
    (local_duplicate_state.conns 0).is_local = true ∧
    self_connection_test (local_duplicate_state.conns 1).socket
      (local_duplicate_state.conns 0).socket
      = (false, error_code.no_error, error_code.no_error) ∧
    (new_connection local_duplicate_state 0).1 = false ∧
    (new_connection local_duplicate_state 0).2.disconnects =
      [(0, error_code.duplicate_peer_id, 0)] ∧
    ((new_connection local_duplicate_state 0).2.m_peers[0]?).bind peer.connection
      = some 1 := by
  decide

/-- C6. When the matching record holds a live connection `e`, the endpoints are read
without error, there is no self-connection and `c` is not a local connection, exactly one
of the two is disconnected with `duplicate_peer_id`: if `e` is not connecting, `c` is
disconnected, the call returns false and `e` stays on the record (`c` not being attached
to that record already); if `e` is still connecting, `e` is disconnected, the record and
`c` refer to each other and the call returns true. -/
theorem new_connection_duplicate (st : policy_state) (c it e : Nat) (i : peer)
    (hlook : lookup st (st.conns c).remote = (it, true))
    (hi : st.m_peers[it]? = some i) (he : i.connection = some e)
    (hec1 : (self_connection_test (st.conns e).socket (st.conns c).socket).2.1
      = error_code.no_error)
    (hec2 : (self_connection_test (st.conns e).socket (st.conns c).socket).2.2
      = error_code.no_error)
    (hself : (self_connection_test (st.conns e).socket (st.conns c).socket).1 = false)
    (hloc : (st.conns c).is_local = false) :
    ((st.conns e).is_connecting = false →
      (new_connection st c).1 = false ∧
      (new_connection st c).2.disconnects =
        st.disconnects ++ [(c, error_code.duplicate_peer_id, 0)] ∧
      ((st.conns c).peer_info ≠ some i.ptr →
        (new_connection st c).2.m_peers[it]? = some i)) ∧
    ((st.conns e).is_connecting = true →
      (new_connection st c).1 = true ∧
      (new_connection st c).2.disconnects =
        st.disconnects ++ [(e, error_code.duplicate_peer_id, 0)] ∧
      (new_connection st c).2.m_peers[it]? = some { i with connection := some c } ∧
      ((new_connection st c).2.conns c).peer_info = some i.ptr) := by
  rw [new_connection_live st c it e i hlook hi he]
  simp only [hec1, hec2, hself, hloc, error_code.failed, Bool.false_eq_true, if_false,
    Bool.or_false]
  constructor
  · intro hconn
    simp only [hconn, Bool.not_false, if_true]
    exact ⟨trivial, by simp, fun hc => disconnect_keeps st c _ _ it i hi hc⟩
  · intro hconn
    simp only [hconn, Bool.not_true, Bool.false_eq_true, if_false]
    obtain ⟨j, hj, hji⟩ := disconnect_getElem? st e error_code.duplicate_peer_id 0 it i hi
    refine ⟨trivial, by simp, ?_, bind_connection_peer_info _ _ _ _⟩
    rw [bind_connection_getElem? _ it i j c hj]
    rcases hji with rfl | rfl <;> rfl

/-- The inbound-duplicate sample: the connecting existing connection is disconnected and
the new inbound connection takes the record. -/
theorem new_connection_duplicate_witness :
    (inbound_duplicate_state.conns 0).is_local = false ∧
    (inbound_duplicate_state.conns 1).is_connecting = true ∧
    (new_connection inbound_duplicate_state 0).1 = true ∧
    (new_connection inbound_duplicate_state 0).2.disconnects =
      [(1, error_code.duplicate_peer_id, 0)] ∧
    (new_connection inbound_duplicate_state 0).2.m_peers[0]? =
      some { ptr := 20, endpoint := ⟨2, 200⟩, connectable := false, connection := some 0 } :=
  have h := (new_connection_duplicate inbound_duplicate_state 0 0 1
    { ptr := 20, endpoint := ⟨2, 200⟩, connectable := false, connection := some 1 }
    (by decide) (by decide) rfl (by decide) (by decide) (by decide) (by decide)).2
    (by decide)
  ⟨by decide, by decide, h.1, h.2.1, h.2.2.1⟩

/-- The expression of lines 125-128 when its first comparison is equal: the second one is
not evaluated, and the error codes are those of the first two reads. -/
theorem self_connection_test_first (other_socket this_socket : tcp_socket)
    (h : (read_endpoint other_socket.remote_endpoint).1 =
      (read_endpoint this_socket.local_endpoint).1) :
    self_connection_test other_socket this_socket =
      (true, (read_endpoint this_socket.local_endpoint).2,
        (read_endpoint other_socket.remote_endpoint).2) := by
  unfold self_connection_test
  simp only [h, if_true]

/-- The expression of lines 125-128 when its first comparison is unequal: the second one
is evaluated, and its two reads overwrite the error codes of the first two. -/
theorem self_connection_test_second (other_socket this_socket : tcp_socket)
    (h : (read_endpoint other_socket.remote_endpoint).1 ≠
      (read_endpoint this_socket.local_endpoint).1) :
    self_connection_test other_socket this_socket =
      (decide ((read_endpoint other_socket.local_endpoint).1 =
          (read_endpoint this_socket.remote_endpoint).1),
        (read_endpoint this_socket.remote_endpoint).2,
        (read_endpoint other_socket.local_endpoint).2) := by
  unfold self_connection_test
  simp only [h, if_false]

/-- C7, as the code has it. The matching record holds a live connection `e`; the
expression of lines 125-128 reads `e.remote` and `c.local` and, only when these compare
unequal, `e.local` and `c.remote`, each read overwriting the error code of its socket.

* When the last read made of the socket of `c` fails with the error `n` (the read of
  `c.local` when the first comparison is equal, else the read of `c.remote`), `c` is
  disconnected with that error, the call returns false and no record is made to refer
  to `c`.
* When the first comparison is unequal, the read of `c.remote` succeeds, the second
  comparison is unequal and the read of `e.local` fails with the error `n`, it is `e`
  that is disconnected with that error, the record and `c` refer to each other and the
  call returns true.
* When the first comparison is unequal, the reads of `c.remote` and `e.local` succeed
  and the second comparison is unequal, the call goes on as if no read had failed,
  whatever the reads of `c.local` and `e.remote` reported: it is settled by the
  duplicate test of lines 150-159. -/
theorem new_connection_read_error (st : policy_state) (c it e : Nat) (i : peer)
    (hlook : lookup st (st.conns c).remote = (it, true))
    (hi : st.m_peers[it]? = some i) (he : i.connection = some e) :
    (∀ n : Nat,
      ((read_endpoint (st.conns e).socket.remote_endpoint).1 =
          (read_endpoint (st.conns c).socket.local_endpoint).1 ∧
        (st.conns c).socket.local_endpoint = .error n) ∨
      ((read_endpoint (st.conns e).socket.remote_endpoint).1 ≠
          (read_endpoint (st.conns c).socket.local_endpoint).1 ∧
        (st.conns c).socket.remote_endpoint = .error n) →
      (new_connection st c).1 = false ∧
      (new_connection st c).2.disconnects =
        st.disconnects ++ [(c, error_code.system n, 0)] ∧
      ∀ (k : Nat) (q : peer), (new_connection st c).2.m_peers[k]? = some q →
        q.connection = some c → st.m_peers[k]? = some q) ∧
    (∀ (n : Nat) (x : tcp_endpoint),
      (read_endpoint (st.conns e).socket.remote_endpoint).1 ≠
        (read_endpoint (st.conns c).socket.local_endpoint).1 →
      (st.conns c).socket.remote_endpoint = .ok x →
      (st.conns e).socket.local_endpoint = .error n →
      tcp_endpoint.any ≠ x →
      (new_connection st c).1 = true ∧
      (new_connection st c).2.disconnects =
        st.disconnects ++ [(e, error_code.system n, 0)] ∧
      (new_connection st c).2.m_peers[it]? = some { i with connection := some c } ∧
      ((new_connection st c).2.conns c).peer_info = some i.ptr) ∧
    (∀ x y : tcp_endpoint,
      (read_endpoint (st.conns e).socket.remote_endpoint).1 ≠
        (read_endpoint (st.conns c).socket.local_endpoint).1 →
      (st.conns c).socket.remote_endpoint = .ok x →
      (st.conns e).socket.local_endpoint = .ok y →
      y ≠ x →
      new_connection st c =
        if !(st.conns e).is_connecting || (st.conns c).is_local then
          (false, disconnect st c error_code.duplicate_peer_id 0)
        else
          (true, bind_connection (disconnect st e error_code.duplicate_peer_id 0) it i c)) := by
  refine ⟨?_, ?_, ?_⟩
  · intro n hread
    have hec1 : (self_connection_test (st.conns e).socket (st.conns c).socket).2.1 =
        error_code.system n := by
      rcases hread with ⟨heq, hn⟩ | ⟨hne, hn⟩
      · rw [self_connection_test_first _ _ heq, hn]; rfl
      · rw [self_connection_test_second _ _ hne, hn]; rfl
    have hfalse : (new_connection st c).1 = false := by
      rw [new_connection_live st c it e i hlook hi he]
      simp only [hec1, error_code.failed, if_true]
    refine ⟨hfalse, ?_, ?_⟩
    · rw [new_connection_live st c it e i hlook hi he]
      simp only [hec1, error_code.failed, if_true]
      simp
    · intro k q hq hqc
      exact only_cleared_reference (new_connection_false_cleared st c hfalse) k c q hq hqc
  · intro n x hne hx hn hany
    have htest : self_connection_test (st.conns e).socket (st.conns c).socket =
        (false, error_code.no_error, error_code.system n) := by
      rw [self_connection_test_second _ _ hne, hx, hn]
      simp only [read_endpoint, hany, decide_False]
    rw [new_connection_live st c it e i hlook hi he]
    simp only [htest, error_code.failed, Bool.false_eq_true, if_false, if_true]
    obtain ⟨j, hj, hji⟩ := disconnect_getElem? st e (error_code.system n) 0 it i hi
    refine ⟨trivial, by simp, ?_, bind_connection_peer_info _ _ _ _⟩
    rw [bind_connection_getElem? _ it i j c hj]
    rcases hji with rfl | rfl <;> rfl
  · intro x y hne hx hy hyx
    have htest : self_connection_test (st.conns e).socket (st.conns c).socket =
        (false, error_code.no_error, error_code.no_error) := by
      rw [self_connection_test_second _ _ hne, hx, hy]
      simp only [read_endpoint, hyx, decide_False]
    rw [new_connection_live st c it e i hlook hi he]
    simp only [htest, error_code.failed, Bool.false_eq_true, if_false]

/-- The sample in which the socket of the new connection cannot be read: the new
connection is disconnected with the system error and the call returns false. And the
sample in which the socket of the existing connection cannot be read: the existing
connection is disconnected with the system error, the new one is bound and the call
returns true. -/
theorem new_connection_read_error_witness :
    lookup unreadable_new_state (unreadable_new_state.conns 0).remote = (0, true) ∧
    (new_connection unreadable_new_state 0).1 = false ∧
    (new_connection unreadable_new_state 0).2.disconnects =
      [(0, error_code.system 9, 0)] ∧
    lookup unreadable_existing_state (unreadable_existing_state.conns 0).remote
      = (0, true) ∧
    (new_connection unreadable_existing_state 0).1 = true ∧
    (new_connection unreadable_existing_state 0).2.disconnects =
      [(1, error_code.system 9, 0)] :=
  have h := (new_connection_read_error unreadable_new_state 0 0 1
    { ptr := 20, endpoint := ⟨2, 200⟩, connectable := false, connection := some 1 }
    (by decide) (by decide) rfl).1 9 (Or.inr ⟨by decide, rfl⟩)
  have g := (new_connection_read_error unreadable_existing_state 0 0 1
    { ptr := 20, endpoint := ⟨2, 200⟩, connectable := false, connection := some 1 }
    (by decide) (by decide) rfl).2.1 9 ⟨2, 200⟩ (by decide) rfl rfl (by decide)
  ⟨by decide, h.1, h.2.1, by decide, g.1, g.2.1⟩

/-- C7 fails as stated, in two ways. The matching record holds a live connection whose
socket reports an error on its reads, yet the new connection is not disconnected: the
existing connection is disconnected with the error, the record refers to the new
connection and the call returns true. And the read of the local endpoint of the new
connection fails with the error 105, which the successful read of its remote endpoint
overwrites: the new connection is not disconnected either, the existing connection is
disconnected as a duplicate, the record refers to the new connection and the call
returns true. -/
theorem new_connection_read_error_counterexample :
    (lookup unreadable_existing_state (unreadable_existing_state.conns 0).remote
        = (0, true) ∧
      (unreadable_existing_state.m_peers[0]?).bind peer.connection = some 1 ∧
      (self_connection_test (unreadable_existing_state.conns 1).socket
        (unreadable_existing_state.conns 0).socket).2.2 = error_code.system 9 ∧
      (new_connection unreadable_existing_state 0).1 = true ∧
      (new_connection unreadable_existing_state 0).2.disconnects =
        [(1, error_code.system 9, 0)] ∧
      ((new_connection unreadable_existing_state 0).2.m_peers[0]?).bind peer.connection
        = some 0) ∧
    (lookup overwritten_error_state (overwritten_error_state.conns 0).remote
        = (0, true) ∧
      (overwritten_error_state.m_peers[0]?).bind peer.connection = some 1 ∧
      (read_endpoint (overwritten_error_state.conns 0).socket.local_endpoint).2 =
        error_code.system 105 ∧
      (new_connection overwritten_error_state 0).1 = true ∧
      (new_connection overwritten_error_state 0).2.disconnects =
        [(1, error_code.duplicate_peer_id, 0)] ∧
      ((new_connection overwritten_error_state 0).2.m_peers[0]?).bind peer.connection
        = some 0 ∧
      ((new_connection overwritten_error_state 0).2.conns 0).peer_info = some 20) := by
  decide

/-- The scenario of the spec: cap 2, two records, a connection from a third address is
rejected with `too_many_connections` and the registry keeps its two records. -/
theorem new_connection_registry_full_witness :
    full_state.ses.settings.max_peerlist_size = 2 ∧
    full_state.m_peers.length = 2 ∧
    (new_connection full_state 0).1 = false ∧
    (new_connection full_state 0).2.disconnects =
      [(0, error_code.too_many_connections, 0)] ∧
    (new_connection full_state 0).2.m_peers = full_state.m_peers :=
  have h := new_connection_registry_full full_state 0 (by decide) (by decide)
  ⟨by decide, by decide, h.1, h.2.1, h.2.2.2.2.2 (by decide)⟩

/-- A blocked endpoint that is already in the registry, multiple-connections-per-IP mode:
no peer is returned, one alert is posted, the registry is as before. -/
theorem add_peer_blocked_witness :
    blocked_state.ses.m_ip_filter 66 &&& ip_filter.blocked ≠ 0 ∧
    (add_peer blocked_state ⟨66, 1⟩).1 = none ∧
    (add_peer blocked_state ⟨66, 1⟩).2.ses.m_alerts = [alert.peer_blocked 7 66] ∧
    (add_peer blocked_state ⟨66, 1⟩).2.m_peers = blocked_state.m_peers :=
  have h := add_peer_blocked blocked_state ⟨66, 1⟩ (by decide)
  ⟨by decide, h.1, h.2.1, h.2.2.1⟩

/-- Adding the address 4 to the sorted registry with 3 and 5, twice: the second call
returns the record of the first and leaves the registry alone. -/
theorem add_peer_dedup_witness :
    sample_sorted_state.ses.settings.allow_multiple_connections_per_ip = false ∧
    sorted_by_address sample_sorted_state.m_peers ∧
    sample_sorted_state.ses.m_ip_filter 4 &&& ip_filter.blocked = 0 ∧
    (add_peer (add_peer sample_sorted_state ⟨4, 1⟩).2 ⟨4, 1⟩).1 =
      (add_peer sample_sorted_state ⟨4, 1⟩).1 ∧
    (add_peer (add_peer sample_sorted_state ⟨4, 1⟩).2 ⟨4, 1⟩).2.m_peers =
      (add_peer sample_sorted_state ⟨4, 1⟩).2.m_peers :=
  ⟨by decide, by decide, by decide,
    (add_peer_dedup sample_sorted_state ⟨4, 1⟩ (by decide) (by decide) (by decide)).2.2⟩

/-! ### Lemmas on `connection_closed` and `ip_filter_updated` -/

theorem set_connection_others (xs : List peer) (a : Nat) (x : Option Nat)
    (h : ∀ q ∈ xs, q.ptr ≠ a) : set_connection xs a x = xs := by
  unfold set_connection
  induction xs with
  | nil => rfl
  | cons y ys ih =>
    have hy : y.ptr ≠ a := h y (List.mem_cons_self _ _)
    have hys : ∀ q ∈ ys, q.ptr ≠ a := fun q hq => h q (List.mem_cons_of_mem _ hq)
    simp only [List.map_cons, hy, if_false]
    rw [ih hys]

/-- With distinct pool chunks, `p->connection = x` changes the one record of the chunk. -/
theorem set_connection_split (l r : List peer) (p : peer) (x : Option Nat)
    (hnd : ((l ++ p :: r).map peer.ptr).Nodup) :
    set_connection (l ++ p :: r) p.ptr x = l ++ { p with connection := x } :: r := by
  rw [List.map_append, List.map_cons] at hnd
  have h1 := List.nodup_append.mp hnd
  have h2 := List.nodup_cons.mp h1.2.1
  have hl : ∀ q ∈ l, q.ptr ≠ p.ptr := by
    intro q hq heq
    exact h1.2.2 (List.mem_map_of_mem peer.ptr hq)
      (by rw [heq]; exact List.mem_cons_self _ _) 
  have hr : ∀ q ∈ r, q.ptr ≠ p.ptr := by
    intro q hq heq
    apply h2.1
    rw [← heq]
    exact List.mem_map_of_mem peer.ptr hq
  have e1 := set_connection_others l p.ptr x hl
  have e2 := set_connection_others r p.ptr x hr
  unfold set_connection at *
  rw [List.map_append, List.map_cons, e1, e2]
  simp

theorem ip_filter_updated_step_frame (st : policy_state) (p : peer) :
    (ip_filter_updated_step st p).ses.m_ip_filter = st.ses.m_ip_filter ∧
    (ip_filter_updated_step st p).handle = st.handle := by
  unfold ip_filter_updated_step
  split
  · exact ⟨rfl, rfl⟩
  · simp only []
    cases p.connection with
    | none => exact ⟨rfl, rfl⟩
    | some c =>
      simp only [disconnect_ses]
      refine ⟨rfl, ?_⟩
      unfold disconnect set_peer connection_closed
      simp only []
      split <;> rfl

theorem ip_filter_updated_step_alerts (st : policy_state) (p : peer) :
    (ip_filter_updated_step st p).ses.m_alerts =
      st.ses.m_alerts ++ blocked_alerts st.ses.m_ip_filter st.handle [p] := by
  unfold ip_filter_updated_step blocked_alerts address_blocked
  by_cases hb : st.ses.m_ip_filter p.address &&& ip_filter.blocked = 0
  · simp [hb]
  · simp only [hb, if_false]
    cases p.connection with
    | none => simp [hb, post_alert_should]
    | some c => simp [hb, post_alert_should]

theorem ip_filter_updated_step_only_cleared (st : policy_state) (p : peer) :
    only_cleared st.m_peers (ip_filter_updated_step st p).m_peers := by
  unfold ip_filter_updated_step
  split
  · exact only_cleared_refl _
  · simp only []
    cases p.connection with
    | none => exact only_cleared_refl _
    | some c =>
      exact disconnect_only_cleared
        { st with ses := post_alert_should st.ses (alert.peer_blocked st.handle p.address) }
        c _ _

theorem ip_filter_updated_step_disconnects (st : policy_state) (p : peer) :
    (ip_filter_updated_step st p).disconnects =
      st.disconnects ++ banned_disconnects st.ses.m_ip_filter [p] := by
  unfold ip_filter_updated_step banned_disconnects address_blocked
  by_cases hb : st.ses.m_ip_filter p.address &&& ip_filter.blocked = 0
  · simp [hb]
  · simp only [hb, if_false]
    cases hc : p.connection with
    | none => simp [hb, hc]
    | some c => simp [hb, hc]

theorem only_cleared_address {xs ys : List peer} (h : only_cleared xs ys) :
    ys.map peer.address = xs.map peer.address := by
  have he := (only_cleared_maps h).2.2
  have hx : ∀ zs : List peer,
      zs.map peer.address = (zs.map peer.endpoint).map tcp_endpoint.address := by
    intro zs
    rw [List.map_map]
    rfl
  rw [hx xs, hx ys, he]

theorem blocked_alerts_address (filter : Nat → Nat) (handle : Nat) (xs : List peer) :
    blocked_alerts filter handle xs =
      ((xs.map peer.address).filter (address_blocked filter)).map
        (alert.peer_blocked handle) := by
  unfold blocked_alerts
  induction xs with
  | nil => rfl
  | cons x xs ih =>
    by_cases hb : address_blocked filter x.address = true
    · simp [List.filter_cons, hb, ih]
    · simp [List.filter_cons, hb, ih]

/-- The loop of `ip_filter_updated`, whatever the links: it visits every record from its
position on, posts the alerts of the blocked ones in order, and leaves the registry as it
was up to cleared connection pointers. -/
theorem ip_filter_updated_loop_alerts (ra : List Nat) :
    ∀ (la : List Nat) (st : policy_state), st.m_peers.map peer.address = la ++ ra →
      (ip_filter_updated_loop ra.length la.length st).ses.m_alerts =
        st.ses.m_alerts ++ (ra.filter (address_blocked st.ses.m_ip_filter)).map
          (alert.peer_blocked st.handle) ∧
      only_cleared st.m_peers (ip_filter_updated_loop ra.length la.length st).m_peers := by
  induction ra with
  | nil =>
    intro la st _
    simp only [List.length_nil, ip_filter_updated_loop, List.filter_nil, List.map_nil,
      List.append_nil, true_and]
    exact only_cleared_refl _
  | cons a ra ih =>
    intro la st hst
    have hget : (st.m_peers.map peer.address)[la.length]? = some a := by
      rw [hst, List.getElem?_append_right (Nat.le_refl _)]
      simp
    rw [List.getElem?_map] at hget
    cases hp : st.m_peers[la.length]? with
    | none => rw [hp] at hget; cases hget
    | some p =>
      rw [hp] at hget
      have hpa : p.address = a := by simpa using hget
      have hclr := ip_filter_updated_step_only_cleared st p
      have hfr := ip_filter_updated_step_frame st p
      have hnext : (ip_filter_updated_step st p).m_peers.map peer.address
          = (la ++ [a]) ++ ra := by
        rw [only_cleared_address hclr, hst]
        simp
      have h := ih (la ++ [a]) (ip_filter_updated_step st p) hnext
      have hlen : (la ++ [a]).length = la.length + 1 := by simp
      rw [hlen] at h
      simp only [List.length_cons, ip_filter_updated_loop, hp]
      refine ⟨?_, only_cleared_trans hclr h.2⟩
      rw [h.1, ip_filter_updated_step_alerts, blocked_alerts_address, hfr.1, hfr.2]
      by_cases hb : address_blocked st.ses.m_ip_filter a = true
      · simp [List.filter_cons, hb, hpa]
      · simp [List.filter_cons, hb, hpa]

theorem nodup_ptr_split {l r : List peer} {p : peer}
    (hnd : ((l ++ p :: r).map peer.ptr).Nodup) :
    (∀ q ∈ l, q.ptr ≠ p.ptr) ∧ (∀ q ∈ r, q.ptr ≠ p.ptr) := by
  rw [List.map_append, List.map_cons] at hnd
  have h1 := List.nodup_append.mp hnd
  have h2 := List.nodup_cons.mp h1.2.1
  constructor
  · intro q hq heq
    exact h1.2.2 (List.mem_map_of_mem peer.ptr hq)
      (by rw [heq]; exact List.mem_cons_self _ _)
  · intro q hq heq
    apply h2.1
    rw [← heq]
    exact List.mem_map_of_mem peer.ptr hq


/-- One round of `ip_filter_updated` on a consistently linked registry: the record visited
loses its connection when it is blocked, every other record is untouched, the links stay
consistent, and only the connection of a blocked record is touched. -/
theorem ip_filter_updated_step_linked (st : policy_state) (l r : List peer) (p : peer)
    (hst : st.m_peers = l ++ p :: r) (hw : well_linked st) :
    (ip_filter_updated_step st p).m_peers =
      l ++ clear_if_blocked st.ses.m_ip_filter p :: r ∧
    well_linked (ip_filter_updated_step st p) ∧
    (∀ c, ¬ (address_blocked st.ses.m_ip_filter p.address = true ∧ p.connection = some c) →
      (ip_filter_updated_step st p).conns c = st.conns c) := by
  unfold ip_filter_updated_step clear_if_blocked address_blocked
  by_cases hb : st.ses.m_ip_filter p.address &&& ip_filter.blocked = 0
  · simp only [hb, if_true, ne_eq, not_true_eq_false, decide_False, Bool.false_eq_true,
      if_false]
    exact ⟨hst, hw, by intros; first | rfl | trivial⟩
  · simp only [hb, if_false, ne_eq, not_false_eq_true, decide_True, if_true, true_and]
    cases hc : p.connection with
    | none =>
      simp only []
      refine ⟨?_, hw, by intros; first | rfl | trivial⟩
      rw [hst, ← hc]
    | some c =>
      simp only []
      have hpm : p ∈ st.m_peers := by rw [hst]; simp
      have hback : (st.conns c).peer_info = some p.ptr := hw.1 p hpm c hc
      have hnd : ((l ++ p :: r).map peer.ptr).Nodup := by rw [← hst]; exact hw.2
      have hsplit := nodup_ptr_split hnd
      have hpeers : (disconnect
          { st with ses := post_alert_should st.ses (alert.peer_blocked st.handle p.address) }
          c error_code.banned_by_ip_filter 0).m_peers = l ++ { p with connection := none } :: r := by
        rw [disconnect_m_peers]
        unfold connection_closed
        simp only [hback]
        rw [hst]
        exact set_connection_split l r p none hnd
      have hconns : (disconnect
          { st with ses := post_alert_should st.ses (alert.peer_blocked st.handle p.address) }
          c error_code.banned_by_ip_filter 0).conns =
          Function.update st.conns c { st.conns c with peer_info := none } :=
        disconnect_conns _ _ _ _
      refine ⟨hpeers, ⟨?_, ?_⟩, ?_⟩
      · intro q hq c2 hqc
        rw [hpeers] at hq
        have hq' : q ∈ l ∨ q ∈ r := by
          rcases List.mem_append.mp hq with h | h
          · exact Or.inl h
          · rcases List.mem_cons.mp h with h | h
            · rw [h] at hqc; cases hqc
            · exact Or.inr h
        have hqm : q ∈ st.m_peers := by
          rw [hst]
          rcases hq' with h | h
          · exact List.mem_append_left _ h
          · exact List.mem_append_right _ (List.mem_cons_of_mem _ h)
        have hqp : q.ptr ≠ p.ptr := by
          rcases hq' with h | h
          · exact hsplit.1 q h
          · exact hsplit.2 q h
        have hq2 := hw.1 q hqm c2 hqc
        have hne : c2 ≠ c := by
          intro heq
          rw [heq, hback] at hq2
          exact hqp (Option.some.inj hq2).symm
        rw [hconns, Function.update_noteq hne]
        exact hq2
      · rw [hpeers]
        have : (l ++ { p with connection := none } :: r).map peer.ptr
            = (l ++ p :: r).map peer.ptr := by simp
        rw [this]
        exact hnd
      · intro c2 hc2
        have hne : c2 ≠ c := by
          intro heq
          exact hc2 (by rw [heq])
        rw [hconns, Function.update_noteq hne]

/-- The loop of `ip_filter_updated` on a consistently linked registry. -/
theorem ip_filter_updated_loop_linked (r : List peer) :
    ∀ (l : List peer) (st : policy_state), st.m_peers = l ++ r → well_linked st →
      (ip_filter_updated_loop r.length l.length st).m_peers =
        l ++ r.map (clear_if_blocked st.ses.m_ip_filter) ∧
      (ip_filter_updated_loop r.length l.length st).disconnects =
        st.disconnects ++ banned_disconnects st.ses.m_ip_filter r ∧
      (∀ c, (∀ q ∈ r, address_blocked st.ses.m_ip_filter q.address = true →
          q.connection ≠ some c) →
        (ip_filter_updated_loop r.length l.length st).conns c = st.conns c) := by
  induction r with
  | nil =>
    intro l st hst _
    simp [ip_filter_updated_loop, banned_disconnects, hst]
  | cons p r ih =>
    intro l st hst hw
    have hp : st.m_peers[l.length]? = some p := by
      rw [hst, List.getElem?_append_right (Nat.le_refl _)]
      simp
    obtain ⟨hpeers, hw2, hconns⟩ := ip_filter_updated_step_linked st l r p hst hw
    have hfr := ip_filter_updated_step_frame st p
    have hnext : (ip_filter_updated_step st p).m_peers
        = (l ++ [clear_if_blocked st.ses.m_ip_filter p]) ++ r := by
      rw [hpeers]; simp
    have h := ih (l ++ [clear_if_blocked st.ses.m_ip_filter p])
      (ip_filter_updated_step st p) hnext hw2
    have hlen : (l ++ [clear_if_blocked st.ses.m_ip_filter p]).length = l.length + 1 := by
      simp
    rw [hlen, hfr.1] at h
    simp only [List.length_cons, ip_filter_updated_loop, hp]
    refine ⟨?_, ?_, ?_⟩
    · rw [h.1]; simp
    · rw [h.2.1, ip_filter_updated_step_disconnects]
      unfold banned_disconnects
      by_cases hb : address_blocked st.ses.m_ip_filter p.address = true
      · cases hc : p.connection <;> simp [List.filter_cons, hb, hc]
      · simp [List.filter_cons, hb]
    · intro c hc
      rw [h.2.2 c (fun q hq => hc q (List.mem_cons_of_mem _ hq))]
      apply hconns
      intro hbc
      exact hc p (List.mem_cons_self _ _) hbc.1 hbc.2

/-- On a consistently linked registry the connection of a record that is not blocked is
not the connection of any blocked record. -/
theorem well_linked_not_banned (st : policy_state) (hw : well_linked st) (q : peer)
    (hq : q ∈ st.m_peers) (hnb : address_blocked st.ses.m_ip_filter q.address = false)
    (c : Nat) (hc : q.connection = some c) :
    ∀ q1 ∈ st.m_peers, address_blocked st.ses.m_ip_filter q1.address = true →
      q1.connection ≠ some c := by
  intro q1 hq1 hb1 hc1
  have h1 := hw.1 q hq c hc
  have h2 := hw.1 q1 hq1 c hc1
  rw [h1] at h2
  have heq : q = q1 := List.inj_on_of_nodup_map hw.2 hq hq1 (Option.some.inj h2)
  rw [heq, hb1] at hnb
  cases hnb

theorem mem_banned_disconnects (filter : Nat → Nat) (xs : List peer)
    (e : Nat × error_code × Nat) (he : e ∈ banned_disconnects filter xs) :
    ∃ q ∈ xs, address_blocked filter q.address = true ∧ q.connection = some e.1 := by
  unfold banned_disconnects at he
  obtain ⟨q, hq, hqe⟩ := List.mem_filterMap.mp he
  obtain ⟨hqx, hqb⟩ := List.mem_filter.mp hq
  refine ⟨q, hqx, hqb, ?_⟩
  cases hc : q.connection with
  | none => rw [hc] at hqe; cases hqe
  | some c =>
    rw [hc] at hqe
    simp only [Option.map_some', Option.some.injEq] at hqe
    rw [← hqe]

/-! ## The claims on `connection_closed` and `ip_filter_updated` -/

/-- C11. The call `connection_closed(c)` removes, adds and reorders no record: the registry
keeps its size, its pool chunks and its endpoints; when `c` refers to no peer the whole
state is unchanged; when `c` refers to the peer `p`, the record of `p` is at its position
without its connection pointer and every other record is as it was, its connection
pointer included; nothing but the registry changes. -/
theorem connection_closed_frame (st : policy_state) (c : Nat) :
    (connection_closed st c).m_peers.length = st.m_peers.length ∧
    (connection_closed st c).m_peers.map peer.ptr = st.m_peers.map peer.ptr ∧
    (connection_closed st c).m_peers.map peer.endpoint = st.m_peers.map peer.endpoint ∧
    ((st.conns c).peer_info = none → connection_closed st c = st) ∧
    (∀ p : Nat, (st.conns c).peer_info = some p →
      ∀ (k : Nat) (q : peer), st.m_peers[k]? = some q →
        (q.ptr = p →
          (connection_closed st c).m_peers[k]? = some { q with connection := none }) ∧
        (q.ptr ≠ p → (connection_closed st c).m_peers[k]? = some q)) ∧
    (connection_closed st c).ses = st.ses ∧
    (connection_closed st c).conns = st.conns ∧
    (connection_closed st c).disconnects = st.disconnects := by
  have hclr : only_cleared st.m_peers (connection_closed st c).m_peers := by
    unfold connection_closed
    cases (st.conns c).peer_info with
    | none => exact only_cleared_refl _
    | some p => exact only_cleared_assign _ p
  have hm := only_cleared_maps hclr
  refine ⟨hm.1, hm.2.1, hm.2.2, ?_, ?_, ?_, ?_, ?_⟩
  · intro h
    unfold connection_closed
    rw [h]
  · intro p hp k q hq
    unfold connection_closed
    simp only [hp, set_connection, List.getElem?_map, hq, Option.map_some']
    constructor
    · intro h; simp [h]
    · intro h; simp [h]
  all_goals
    unfold connection_closed
    cases (st.conns c).peer_info <;> rfl

/-- C12. The call `ip_filter_updated()` leaves the sequence of peer records as it was (same
size, pool chunks and endpoints, in order). On a consistently linked registry every
record whose address is not blocked is unchanged, its connection pointer included, its
connection is not among the connections disconnected, and that connection is untouched. -/
theorem ip_filter_updated_frame (st : policy_state) :
    ((ip_filter_updated st).m_peers.length = st.m_peers.length ∧
      (ip_filter_updated st).m_peers.map peer.ptr = st.m_peers.map peer.ptr ∧
      (ip_filter_updated st).m_peers.map peer.endpoint = st.m_peers.map peer.endpoint) ∧
    (well_linked st →
      (ip_filter_updated st).disconnects =
        st.disconnects ++ banned_disconnects st.ses.m_ip_filter st.m_peers ∧
      ∀ (k : Nat) (q : peer), st.m_peers[k]? = some q →
        address_blocked st.ses.m_ip_filter q.address = false →
        (ip_filter_updated st).m_peers[k]? = some q ∧
        ∀ c : Nat, q.connection = some c →
          (∀ e ∈ banned_disconnects st.ses.m_ip_filter st.m_peers, e.1 ≠ c) ∧
          (ip_filter_updated st).conns c = st.conns c) := by
  constructor
  · have h := (ip_filter_updated_loop_alerts (st.m_peers.map peer.address) [] st
      (by simp)).2
    simp only [List.length_map, List.length_nil] at h
    exact only_cleared_maps h
  · intro hw
    have h := ip_filter_updated_loop_linked st.m_peers [] st (by simp) hw
    simp only [List.length_nil, List.nil_append] at h
    refine ⟨h.2.1, ?_⟩
    intro k q hq hnb
    have hqm : q ∈ st.m_peers := List.mem_iff_getElem?.mpr ⟨k, hq⟩
    constructor
    · unfold ip_filter_updated
      rw [h.1, List.getElem?_map, hq]
      simp [clear_if_blocked, hnb]
    · intro c hc
      have hnot := well_linked_not_banned st hw q hqm hnb c hc
      constructor
      · intro e he heq
        obtain ⟨q1, hq1, hb1, hc1⟩ := mem_banned_disconnects _ _ e he
        rw [heq] at hc1
        exact hnot q1 hq1 hb1 hc1
      · exact h.2.2 c hnot

/-- C13. The call `ip_filter_updated()` posts exactly one `peer_blocked` alert for every
record whose address is blocked, in the order of the registry, and none for the others.
On a consistently linked registry it disconnects with `banned_by_ip_filter` exactly the
connections of the blocked records that have one, in that order, and afterwards no
blocked record has a connection. -/
theorem ip_filter_updated_effect (st : policy_state) :
    (ip_filter_updated st).ses.m_alerts =
      st.ses.m_alerts ++ blocked_alerts st.ses.m_ip_filter st.handle st.m_peers ∧
    (well_linked st →
      (ip_filter_updated st).disconnects =
        st.disconnects ++ banned_disconnects st.ses.m_ip_filter st.m_peers ∧
      ∀ q ∈ (ip_filter_updated st).m_peers,
        address_blocked st.ses.m_ip_filter q.address = true → q.connection = none) := by
  constructor
  · have h := (ip_filter_updated_loop_alerts (st.m_peers.map peer.address) [] st
      (by simp)).1
    simp only [List.length_map, List.length_nil] at h
    unfold ip_filter_updated
    rw [h, blocked_alerts_address]
  · intro hw
    have h := ip_filter_updated_loop_linked st.m_peers [] st (by simp) hw
    simp only [List.length_nil, List.nil_append] at h
    refine ⟨h.2.1, ?_⟩
    intro q hq hb
    unfold ip_filter_updated at hq
    rw [h.1] at hq
    obtain ⟨q0, _, hq0⟩ := List.mem_map.mp hq
    unfold clear_if_blocked at hq0
    by_cases hb0 : address_blocked st.ses.m_ip_filter q0.address = true
    · rw [if_pos hb0] at hq0
      rw [← hq0]
    · rw [if_neg hb0] at hq0
      rw [hq0] at hb0
      exact absurd hb hb0

/-- The scenario of the spec: of two registered and connected peers the one at the blocked
address 66 loses its connection, with `banned_by_ip_filter`; the other record and its
connection are as before, and both records remain. -/
theorem ip_filter_updated_frame_witness :
    well_linked filter_state ∧
    (ip_filter_updated filter_state).m_peers.length = 2 ∧
    (ip_filter_updated filter_state).m_peers[0]? = filter_state.m_peers[0]? ∧
    (ip_filter_updated filter_state).conns 0 = filter_state.conns 0 ∧
    (ip_filter_updated filter_state).disconnects
      = [(1, error_code.banned_by_ip_filter, 0)] :=
  have hw : well_linked filter_state := by decide
  have h := ip_filter_updated_frame filter_state
  have h2 := (h.2 hw).2 0
    { ptr := 20, endpoint := ⟨3, 1⟩, connectable := false, connection := some 0 }
    (by decide) (by decide)
  ⟨hw, h.1.1, h2.1, (h2.2 0 rfl).2, (h.2 hw).1⟩

/-- The same scenario: one alert, for the address 66, one disconnect, and the blocked
record is left without a connection. -/
theorem ip_filter_updated_effect_witness :
    well_linked filter_state ∧
    (ip_filter_updated filter_state).ses.m_alerts = [alert.peer_blocked 7 66] ∧
    (ip_filter_updated filter_state).disconnects
      = [(1, error_code.banned_by_ip_filter, 0)] ∧
    ∀ q ∈ (ip_filter_updated filter_state).m_peers,
      address_blocked filter_state.ses.m_ip_filter q.address = true →
        q.connection = none :=
  have hw : well_linked filter_state := by decide
  have h := ip_filter_updated_effect filter_state
  ⟨hw, h.1, (h.2 hw).1, (h.2 hw).2⟩

/-! ## The claim on `connect_one_peer` -/

/-- A scan `find_if` over positions that all exist stops at the first record that
satisfies the predicate, or at `last`. -/
theorem find_if_loop_first (pred : peer → Bool) (xs : List peer) :
    ∀ (n first : Nat), first + n ≤ xs.length →
      first ≤ find_if_loop pred xs n first (first + n) ∧
      find_if_loop pred xs n first (first + n) ≤ first + n ∧
      (∀ (j : Nat) (q : peer), first ≤ j → j < find_if_loop pred xs n first (first + n) →
        xs[j]? = some q → pred q = false) ∧
      (find_if_loop pred xs n first (first + n) < first + n →
        ∃ q, xs[find_if_loop pred xs n first (first + n)]? = some q ∧ pred q = true) := by
  intro n
  induction n with
  | zero =>
    intro first _
    simp only [find_if_loop, Nat.add_zero, Nat.le_refl, Nat.lt_irrefl, true_and,
      false_implies, and_true]
    intro j q h1 h2
    omega
  | succ n ih =>
    intro first hle
    have hlt : first < xs.length := by omega
    have hx : xs[first]? = some xs[first] := List.getElem?_eq_getElem hlt
    unfold find_if_loop
    rw [hx]
    simp only []
    by_cases hp : pred xs[first] = true
    · simp only [hp, if_true]
      refine ⟨Nat.le_refl _, by omega, ?_, fun _ => ⟨_, hx, hp⟩⟩
      intro j q h1 h2
      omega
    · simp only [hp, Bool.false_eq_true, if_false]
      have h := ih (first + 1) (by omega)
      have heq : first + 1 + n = first + (n + 1) := by omega
      rw [heq] at h
      refine ⟨by omega, h.2.1, ?_, h.2.2.2⟩
      intro j q h1 h2 hq
      rcases Nat.eq_or_lt_of_le h1 with h3 | h3
      · subst h3
        rw [hx] at hq
        cases hq
        simpa using hp
      · exact h.2.2.1 j q h3 h2 hq

/-- C20. The call `find_connect_candidate()` returns the first record, in the order of the
registry, for which `is_connect_candidate` holds (no record before it is a candidate),
and `end` exactly when no record is a candidate. The call `connect_one_peer()` returns
false and leaves the state alone, without calling the transfer, when there is no
candidate; otherwise its result and its effect are those of one call of
`transfer::connect_to_peer` for that first candidate. -/
theorem connect_one_peer_first_candidate {σ : Type} (policy : σ → policy_state)
    (connect_to_peer : σ → Nat → Bool × σ) (s : σ) :
    find_connect_candidate (policy s) ≤ (policy s).m_peers.length ∧
    (∀ (j : Nat) (q : peer), j < find_connect_candidate (policy s) →
      (policy s).m_peers[j]? = some q → is_connect_candidate (policy s) q = false) ∧
    (∀ q : peer, (policy s).m_peers[find_connect_candidate (policy s)]? = some q →
      is_connect_candidate (policy s) q = true ∧
      connect_one_peer policy connect_to_peer s = connect_to_peer s q.ptr) ∧
    (find_connect_candidate (policy s) = (policy s).m_peers.length ↔
      ∀ q ∈ (policy s).m_peers, is_connect_candidate (policy s) q = false) ∧
    (find_connect_candidate (policy s) = (policy s).m_peers.length →
      connect_one_peer policy connect_to_peer s = (false, s)) := by
  have h := find_if_loop_first (is_connect_candidate (policy s)) (policy s).m_peers
    (policy s).m_peers.length 0 (by omega)
  have hk : find_connect_candidate (policy s) =
      find_if_loop (is_connect_candidate (policy s)) (policy s).m_peers
        (policy s).m_peers.length 0 (0 + (policy s).m_peers.length) := by
    simp [find_connect_candidate, find_if]
  rw [← hk] at h
  simp only [Nat.zero_add] at h
  refine ⟨h.2.1, ?_, ?_, ?_, ?_⟩
  · intro j q hj hq
    exact h.2.2.1 j q (Nat.zero_le _) hj hq
  · intro q hq
    have hlt : find_connect_candidate (policy s) < (policy s).m_peers.length :=
      (List.getElem?_eq_some.mp hq).1
    obtain ⟨q1, hq1, hp1⟩ := h.2.2.2 hlt
    rw [hq] at hq1
    cases hq1
    refine ⟨hp1, ?_⟩
    unfold connect_one_peer
    simp only [hq]
    cases hr : (connect_to_peer s q.ptr).1 with
    | false =>
      simp only [Bool.not_false, if_true]
      rw [← hr]
    | true =>
      simp only [Bool.not_true, Bool.false_eq_true, if_false]
      rw [← hr]
  · constructor
    · intro heq q hq
      obtain ⟨j, hj⟩ := List.mem_iff_getElem?.mp hq
      have hjl : j < (policy s).m_peers.length := (List.getElem?_eq_some.mp hj).1
      exact h.2.2.1 j q (Nat.zero_le _) (by omega) hj
    · intro hall
      by_contra hne
      have hlt : find_connect_candidate (policy s) < (policy s).m_peers.length := by
        have := h.2.1
        omega
      obtain ⟨q1, hq1, hp1⟩ := h.2.2.2 hlt
      have := hall q1 (List.mem_iff_getElem?.mpr ⟨_, hq1⟩)
      rw [this] at hp1
      cases hp1
  · intro heq
    unfold connect_one_peer
    simp only [heq]
    rw [List.getElem?_eq_none (Nat.le_refl _)]

/-! ## The claims on the transfer -/

theorem transfer_disconnect_fold {P : Type} (ec : error_code) (n : Nat) (cs : List Nat) :
    ∀ s : transfer_state P,
      (cs.foldl (fun s p => if s.upload_only p then transfer_disconnect s p ec n else s)
        s).calls =
        s.calls ++ (cs.filter s.upload_only).map
          (fun c => transfer_event.disconnect c ec n) ∧
      (cs.foldl (fun s p => if s.upload_only p then transfer_disconnect s p ec n else s)
        s).policy.disconnects =
        s.policy.disconnects ++ (cs.filter s.upload_only).map (fun c => (c, ec, n)) ∧
      (cs.foldl (fun s p => if s.upload_only p then transfer_disconnect s p ec n else s)
        s).m_picker = s.m_picker := by
  induction cs with
  | nil => intro s; simp
  | cons c cs ih =>
    intro s
    simp only [List.foldl_cons]
    by_cases hu : s.upload_only c = true
    · have h := ih (transfer_disconnect s c ec n)
      simp only [hu, if_true]
      refine ⟨?_, ?_, ?_⟩
      · rw [h.1]; simp [transfer_disconnect, List.filter_cons, hu]
      · rw [h.2.1]; simp [transfer_disconnect, List.filter_cons, hu]
      · rw [h.2.2]; rfl
    · have h := ih s
      simp only [hu, Bool.false_eq_true, if_false]
      refine ⟨?_, ?_, h.2.2⟩
      · rw [h.1]; simp [List.filter_cons, hu]
      · rw [h.2.1]; simp [List.filter_cons, hu]

theorem second_tick_fold {P : Type} (cs : List Nat) :
    ∀ s : transfer_state P,
      ticked ((cs.foldl
        (fun s p =>
          if s.second_tick_throws p then
            transfer_disconnect
              { s with calls := s.calls ++ [transfer_event.second_tick p] }
              p error_code.no_error 1
          else { s with calls := s.calls ++ [transfer_event.second_tick p] })
        s).calls) = ticked s.calls ++ cs ∧
      disconnected ((cs.foldl
        (fun s p =>
          if s.second_tick_throws p then
            transfer_disconnect
              { s with calls := s.calls ++ [transfer_event.second_tick p] }
              p error_code.no_error 1
          else { s with calls := s.calls ++ [transfer_event.second_tick p] })
        s).calls) = disconnected s.calls ++
          (cs.filter s.second_tick_throws).map (fun c => (c, error_code.no_error, 1)) ∧
      (cs.foldl
        (fun s p =>
          if s.second_tick_throws p then
            transfer_disconnect
              { s with calls := s.calls ++ [transfer_event.second_tick p] }
              p error_code.no_error 1
          else { s with calls := s.calls ++ [transfer_event.second_tick p] })
        s).policy.disconnects = s.policy.disconnects ++
          (cs.filter s.second_tick_throws).map (fun c => (c, error_code.no_error, 1)) := by
  induction cs with
  | nil => intro s; simp
  | cons c cs ih =>
    intro s
    simp only [List.foldl_cons]
    by_cases ht : s.second_tick_throws c = true
    · have h := ih (transfer_disconnect
        { s with calls := s.calls ++ [transfer_event.second_tick c] }
        c error_code.no_error 1)
      simp only [ht, if_true]
      refine ⟨?_, ?_, ?_⟩
      · rw [h.1]; simp [transfer_disconnect, ticked, List.filterMap_append]
      · rw [h.2.1]
        simp [transfer_disconnect, disconnected, List.filterMap_append, List.filter_cons, ht]
      · rw [h.2.2]; simp [transfer_disconnect, List.filter_cons, ht]
    · have h := ih { s with calls := s.calls ++ [transfer_event.second_tick c] }
      simp only [ht, Bool.false_eq_true, if_false]
      refine ⟨?_, ?_, ?_⟩
      · rw [h.1]; simp [ticked, List.filterMap_append]
      · rw [h.2.1]; simp [disconnected, List.filterMap_append, List.filter_cons, ht]
      · rw [h.2.2]; simp [List.filter_cons, ht]

/-- C14. When the tracker reports that the piece is not finished, `piece_finished` does
nothing, whatever the result code: the call returns with the state of the transfer as it
was, the tracker and the record of calls included, so that none of `piece_passed`,
`we_have`, `restore_piece` and `finished` is called. -/
theorem piece_finished_not_finished {P : Type} (ops : piece_picker P)
    (st : transfer_state P) (pk : P) (index passed_hash_check : Int)
    (hpk : st.m_picker = some pk) (hnf : ops.is_piece_finished pk index = false) :
    piece_finished ops st index passed_hash_check = some st := by
  unfold piece_finished
  simp [hpk, hnf]

/-- A delivery for a piece the tracker has already handed over: all three result codes
leave the sample transfer as it is. -/
theorem piece_finished_not_finished_witness :
    sample_picker_ops.is_piece_finished { owned := [0], downloaded := [1, 2, 3] } 0 = false ∧
    piece_finished sample_picker_ops
      (sample_transfer (some { owned := [0], downloaded := [1, 2, 3] })) 0 0 =
      some (sample_transfer (some { owned := [0], downloaded := [1, 2, 3] })) ∧
    piece_finished sample_picker_ops
      (sample_transfer (some { owned := [0], downloaded := [1, 2, 3] })) 0 (-2) =
      some (sample_transfer (some { owned := [0], downloaded := [1, 2, 3] })) :=
  ⟨by decide,
    piece_finished_not_finished sample_picker_ops _ _ 0 0 rfl (by decide),
    piece_finished_not_finished sample_picker_ops _ _ 0 (-2) rfl (by decide)⟩

/-- C16, what the code does. For a piece the tracker reports as finished,
`piece_finished(index, -2)` calls `piece_failed`, whose body is empty: the tracker is
left as it was, so the piece is still reported as finished and `restore_piece` is not
called; the piece is not recorded as owned and `finished` is not called either. On the
sample the tracker that `restore_piece(0)` would produce differs from the one left. -/
theorem piece_finished_hash_failure {P : Type} (ops : piece_picker P)
    (st : transfer_state P) (pk : P) (index : Int) :
    (st.m_picker = some pk → ops.is_piece_finished pk index = true →
      piece_finished ops st index (-2) =
        some { st with calls := st.calls ++ [transfer_event.piece_failed index] }) ∧
    (piece_finished sample_picker_ops downloading_transfer 0 (-2)).map
      (fun s => s.m_picker) = some downloading_transfer.m_picker ∧
    sample_picker_ops.is_piece_finished { owned := [], downloaded := [0, 1, 2, 3] } 0
      = true ∧
    sample_picker_ops.restore_piece { owned := [], downloaded := [0, 1, 2, 3] } 0 ≠
      { owned := [], downloaded := [0, 1, 2, 3] } := by
  refine ⟨?_, by decide, by decide, by decide⟩
  intro hpk hf
  unfold piece_finished
  simp [hpk, hf, piece_failed]

/-- C17. For a piece the tracker reports as finished, `piece_finished` with a result code
other than 0 and -2, the disk failure -1 among them, calls `restore_piece(index)` of the
tracker exactly once and then the empty `restore_piece_state`, and nothing else:
neither `piece_failed` nor `we_have` nor `finished`. -/
theorem piece_finished_disk_failure {P : Type} (ops : piece_picker P)
    (st : transfer_state P) (pk : P) (index passed_hash_check : Int)
    (hpk : st.m_picker = some pk) (hf : ops.is_piece_finished pk index = true)
    (h0 : passed_hash_check ≠ 0) (h2 : passed_hash_check ≠ -2) :
    piece_finished ops st index passed_hash_check =
      some { st with
        m_picker := some (ops.restore_piece pk index)
        calls := st.calls ++ [transfer_event.restore_piece index,
          transfer_event.restore_piece_state index] } := by
  unfold piece_finished
  simp [hpk, hf, h0, h2, restore_piece_state]

/-- A disk failure for piece 0 of the sample: one `restore_piece(0)`, and the piece is no
longer among the downloaded ones. -/
theorem piece_finished_disk_failure_witness :
    (piece_finished sample_picker_ops downloading_transfer 0 (-1)).map (fun s => s.calls) =
      some [transfer_event.restore_piece 0, transfer_event.restore_piece_state 0] ∧
    (piece_finished sample_picker_ops downloading_transfer 0 (-1)).map
      (fun s => s.m_picker) = some (some { owned := [], downloaded := [1, 2, 3] }) :=
  have h := piece_finished_disk_failure sample_picker_ops downloading_transfer
    { owned := [], downloaded := [0, 1, 2, 3] } 0 (-1) rfl (by decide) (by decide)
    (by decide)
  ⟨by rw [h]; rfl, by rw [h]; rfl⟩

/-- What `finished` records: its own entry, `completed` for a seed, the disconnects of the
upload-only connections, and the release request; a seed is left without tracker. -/
theorem finished_calls {P : Type} (ops : piece_picker P) (st : transfer_state P) :
    (finished ops st).calls =
      st.calls ++ transfer_event.finished ::
        ((if is_seed ops st then [transfer_event.completed] else []) ++
          ((st.m_connections.filter st.upload_only).map
            (fun c => transfer_event.disconnect c error_code.transfer_finished 0) ++
          [transfer_event.async_release_files])) ∧
    (finished ops st).policy.disconnects =
      st.policy.disconnects ++ (st.m_connections.filter st.upload_only).map
        (fun c => (c, error_code.transfer_finished, 0)) ∧
    (is_seed ops st = true → (finished ops st).m_picker = none) := by
  have hseed : is_seed ops { st with calls := st.calls ++ [transfer_event.finished] }
      = is_seed ops st := rfl
  unfold finished
  simp only [hseed]
  by_cases hs : is_seed ops st = true
  · simp only [hs, if_true]
    have h := transfer_disconnect_fold error_code.transfer_finished 0 st.m_connections
      (completed { st with calls := st.calls ++ [transfer_event.finished] })
    refine ⟨?_, ?_, fun _ => ?_⟩
    · simp only [completed] at h ⊢
      rw [h.1]
      simp
    · simp only [completed] at h ⊢
      rw [h.2.1]
    · simp only [completed] at h ⊢
      rw [h.2.2]
  · simp only [hs, Bool.false_eq_true, if_false]
    have h := transfer_disconnect_fold error_code.transfer_finished 0 st.m_connections
      { st with calls := st.calls ++ [transfer_event.finished] }
    refine ⟨?_, ?_, fun hc => absurd hc (by simp)⟩
    · rw [h.1]
      simp
    · rw [h.2.1]

/-- C18. On a seed, `finished` first runs `completed`, which releases the piece tracker;
then it disconnects, with `transfer_finished`, exactly the connections of the transfer
that serve uploads only, in the order of the set; then it issues the one request to
release the files. The tracker is still released at the end. -/
theorem finished_on_seed {P : Type} (ops : piece_picker P) (st : transfer_state P)
    (hseed : is_seed ops st = true) :
    (finished ops st).calls =
      st.calls ++ [transfer_event.finished, transfer_event.completed] ++
        (st.m_connections.filter st.upload_only).map
          (fun c => transfer_event.disconnect c error_code.transfer_finished 0) ++
        [transfer_event.async_release_files] ∧
    has_picker (completed { st with calls := st.calls ++ [transfer_event.finished] })
      = false ∧
    has_picker (finished ops st) = false ∧
    (finished ops st).policy.disconnects =
      st.policy.disconnects ++ (st.m_connections.filter st.upload_only).map
        (fun c => (c, error_code.transfer_finished, 0)) := by
  have h := finished_calls ops st
  refine ⟨?_, rfl, ?_, h.2.1⟩
  · rw [h.1]
    simp [hseed]
  · unfold has_picker
    rw [h.2.2 hseed]
    rfl

/-- A seed without tracker and with the connections 0 and 1, of which 1 serves uploads
only: `completed`, one disconnect, one release request, in this order. -/
theorem finished_on_seed_witness :
    is_seed sample_picker_ops (sample_transfer none) = true ∧
    (finished sample_picker_ops (sample_transfer none)).calls =
      [transfer_event.finished, transfer_event.completed,
        transfer_event.disconnect 1 error_code.transfer_finished 0,
        transfer_event.async_release_files] :=
  ⟨by decide, (finished_on_seed sample_picker_ops (sample_transfer none) (by decide)).1⟩

/-- C19. The call `second_tick()` of the transfer calls `second_tick()` on every
connection of the set, in order, each exactly once, whichever of them fail; it
disconnects with `no_error` exactly the connections whose tick failed, and it returns. -/
theorem second_tick_all {P : Type} (st : transfer_state P)
    (hset : st.m_connections.Nodup) :
    ticked (second_tick st).calls = ticked st.calls ++ st.m_connections ∧
    (∀ c ∈ st.m_connections,
      (ticked (second_tick st).calls).count c = (ticked st.calls).count c + 1) ∧
    disconnected (second_tick st).calls = disconnected st.calls ++
      (st.m_connections.filter st.second_tick_throws).map
        (fun c => (c, error_code.no_error, 1)) ∧
    (second_tick st).policy.disconnects = st.policy.disconnects ++
      (st.m_connections.filter st.second_tick_throws).map
        (fun c => (c, error_code.no_error, 1)) := by
  have h := second_tick_fold st.m_connections st
  refine ⟨h.1, ?_, h.2.1, h.2.2⟩
  intro c hc
  have h1 : ticked (second_tick st).calls = ticked st.calls ++ st.m_connections := h.1
  rw [h1, List.count_append, List.count_eq_one_of_mem hset hc]

/-- The sample transfer, whose connection 0 has a failing tick: both connections are
ticked, and connection 0 alone is disconnected. -/
theorem second_tick_all_witness :
    downloading_transfer.m_connections.Nodup ∧
    ticked (second_tick downloading_transfer).calls = [0, 1] ∧
    disconnected (second_tick downloading_transfer).calls =
      [(0, error_code.no_error, 1)] :=
  have h := second_tick_all downloading_transfer (by decide)
  ⟨by decide, h.1, h.2.2.1⟩

theorem piece_passed_released {P : Type} (ops : piece_picker P) (st : transfer_state P)
    (index : Int) (h : st.m_picker = none) : piece_passed ops st index = none := by
  unfold piece_passed we_have
  simp [h]

theorem piece_passed_seq_released {P : Type} (ops : piece_picker P) (st : transfer_state P)
    (indices : List Int) (h : st.m_picker = none) :
    piece_passed_seq ops st indices = st := by
  cases indices with
  | nil => rfl
  | cons i rest =>
    unfold piece_passed_seq
    rw [piece_passed_released ops st i h]

/-- One call of `piece_passed` on a transfer with a tracker: it returns, and it calls
`finished`, once, exactly when the tracker did not have all pieces before and has them
all after `we_have`; the tracker is released in that case. -/
theorem piece_passed_call {P : Type} (ops : piece_picker P) (st : transfer_state P)
    (index : Int) (pk : P) (hpk : st.m_picker = some pk) :
    ∃ (st1 : transfer_state P) (new : List transfer_event),
      piece_passed ops st index = some st1 ∧ st1.calls = st.calls ++ new ∧
      (ops.num_have pk ≠ num_pieces st ∧ ops.num_have (ops.we_have pk index) = num_pieces st →
        new.count transfer_event.finished = 1 ∧ st1.m_picker = none) ∧
      (¬ (ops.num_have pk ≠ num_pieces st ∧
          ops.num_have (ops.we_have pk index) = num_pieces st) →
        new.count transfer_event.finished = 0) := by
  have hwas : num_have ops st = ops.num_have pk := by
    unfold num_have; rw [hpk]
  have hwe : we_have ops st index = some { st with
      m_picker := some (ops.we_have pk index)
      calls := st.calls ++ [transfer_event.we_have index] } := by
    unfold we_have; rw [hpk]
  have hfin : is_finished ops { st with
      m_picker := some (ops.we_have pk index)
      calls := st.calls ++ [transfer_event.we_have index] }
      = decide (ops.num_have (ops.we_have pk index) = num_pieces st) := rfl
  have hseed : is_seed ops { st with
      m_picker := some (ops.we_have pk index)
      calls := st.calls ++ [transfer_event.we_have index] }
      = decide (ops.num_have (ops.we_have pk index) = num_pieces st) := rfl
  unfold piece_passed
  rw [hwe, hwas]
  simp only [hfin]
  by_cases hc : ops.num_have pk ≠ num_pieces st ∧
      ops.num_have (ops.we_have pk index) = num_pieces st
  · have hcond : (!decide (ops.num_have pk = num_pieces st) &&
        decide (ops.num_have (ops.we_have pk index) = num_pieces st)) = true := by
      simp [hc.1, hc.2]
    rw [if_pos hcond]
    have h := finished_calls ops { st with
      m_picker := some (ops.we_have pk index)
      calls := st.calls ++ [transfer_event.we_have index] }
    have hs : is_seed ops { st with
        m_picker := some (ops.we_have pk index)
        calls := st.calls ++ [transfer_event.we_have index] } = true := by
      rw [hseed]; simp [hc.2]
    have hcalls : (finished ops { st with
        m_picker := some (ops.we_have pk index)
        calls := st.calls ++ [transfer_event.we_have index] }).calls =
        st.calls ++ (transfer_event.we_have index :: transfer_event.finished ::
          transfer_event.completed ::
          ((st.m_connections.filter st.upload_only).map
            (fun c => transfer_event.disconnect c error_code.transfer_finished 0) ++
          [transfer_event.async_release_files])) := by
      rw [h.1]
      simp [hs]
    refine ⟨_, _, rfl, hcalls, fun _ => ⟨?_, h.2.2 hs⟩, fun hn => absurd hc hn⟩
    simp [List.count_cons, List.count_append, List.count_eq_zero]
  · have hcond : ¬ ((!decide (ops.num_have pk = num_pieces st) &&
        decide (ops.num_have (ops.we_have pk index) = num_pieces st)) = true) := by
      intro h
      apply hc
      simpa using h
    rw [if_neg hcond]
    refine ⟨_, [transfer_event.we_have index], rfl, rfl, fun h => absurd h hc, fun _ => ?_⟩
    simp [List.count_cons]

/-- Over a sequence of `piece_passed` calls `finished` is called at most once. -/
theorem piece_passed_seq_once {P : Type} (ops : piece_picker P) (indices : List Int) :
    ∀ st : transfer_state P, ∃ new : List transfer_event,
      (piece_passed_seq ops st indices).calls = st.calls ++ new ∧
      new.count transfer_event.finished ≤ 1 := by
  induction indices with
  | nil =>
    intro st
    exact ⟨[], by simp [piece_passed_seq], by simp⟩
  | cons i rest ih =>
    intro st
    cases hpk : st.m_picker with
    | none =>
      rw [piece_passed_seq_released ops st _ hpk]
      exact ⟨[], by simp, by simp⟩
    | some pk =>
      obtain ⟨st1, new1, hcall, hcalls, hyes, hno⟩ := piece_passed_call ops st i pk hpk
      unfold piece_passed_seq
      rw [hcall]
      simp only []
      by_cases hc : ops.num_have pk ≠ num_pieces st ∧
          ops.num_have (ops.we_have pk i) = num_pieces st
      · obtain ⟨hcount, hrel⟩ := hyes hc
        rw [piece_passed_seq_released ops st1 rest hrel]
        exact ⟨new1, hcalls, by omega⟩
      · have hcount := hno hc
        obtain ⟨new2, hcalls2, hcount2⟩ := ih st1
        refine ⟨new1 ++ new2, ?_, ?_⟩
        · rw [hcalls2, hcalls, List.append_assoc]
        · rw [List.count_append]
          omega

/-- C15. On a transfer with a tracker a call of `piece_passed` returns, and it calls
`finished` exactly when the tracker did not have all pieces before the call and has them
all after it, and then once; over a sequence of `piece_passed` calls `finished` is called
at most once; and `piece_finished(index, 0)` on a piece that the tracker reports as
finished is `piece_passed(index)`. -/
theorem piece_passed_finished_once {P : Type} (ops : piece_picker P)
    (st : transfer_state P) :
    (∀ (index : Int) (pk : P), st.m_picker = some pk →
      ∃ (st1 : transfer_state P) (new : List transfer_event),
        piece_passed ops st index = some st1 ∧ st1.calls = st.calls ++ new ∧
        (transfer_event.finished ∈ new ↔
          ops.num_have pk ≠ num_pieces st ∧
            ops.num_have (ops.we_have pk index) = num_pieces st) ∧
        new.count transfer_event.finished ≤ 1) ∧
    (∀ indices : List Int, ∃ new : List transfer_event,
      (piece_passed_seq ops st indices).calls = st.calls ++ new ∧
      new.count transfer_event.finished ≤ 1) ∧
    (∀ (index : Int) (pk : P), st.m_picker = some pk →
      ops.is_piece_finished pk index = true →
      piece_finished ops st index 0 = piece_passed ops st index) := by
  refine ⟨?_, fun indices => piece_passed_seq_once ops indices st, ?_⟩
  · intro index pk hpk
    obtain ⟨st1, new, hcall, hcalls, hyes, hno⟩ := piece_passed_call ops st index pk hpk
    refine ⟨st1, new, hcall, hcalls, ?_, ?_⟩
    · constructor
      · intro hmem
        by_contra hc
        have := hno hc
        rw [List.count_eq_zero] at this
        exact this hmem
      · intro hc
        have := (hyes hc).1
        exact List.count_pos_iff.mp (by omega)
    · by_cases hc : ops.num_have pk ≠ num_pieces st ∧
          ops.num_have (ops.we_have pk index) = num_pieces st
      · have := (hyes hc).1
        omega
      · have := hno hc
        omega
  · intro index pk hpk hf
    unfold piece_finished
    simp [hpk, hf]

/-- The scenario of the spec: four pieces, `piece_finished(0..3, passed)` in order;
`finished` is not called in the first three calls and is called once in the fourth. -/
theorem piece_passed_finished_once_witness :
    num_pieces downloading_transfer = 4 ∧
    (piece_finished_seq sample_picker_ops downloading_transfer
      [(0, 0), (1, 0), (2, 0)]).calls.count transfer_event.finished = 0 ∧
    (piece_finished_seq sample_picker_ops downloading_transfer
      [(0, 0), (1, 0), (2, 0), (3, 0)]).calls.count transfer_event.finished = 1 ∧
    (piece_finished_seq sample_picker_ops downloading_transfer
      [(0, 0), (1, 0), (2, 0), (3, 0)]).calls.getLast? =
      some transfer_event.async_release_files ∧
    ∃ new : List transfer_event,
      (piece_passed_seq sample_picker_ops downloading_transfer [0, 1, 2, 3]).calls =
        downloading_transfer.calls ++ new ∧
      new.count transfer_event.finished ≤ 1 :=
  ⟨by decide, by decide, by decide, by decide,
    (piece_passed_finished_once sample_picker_ops downloading_transfer).2.1 [0, 1, 2, 3]⟩

/-- A registry whose first record is connected and whose second is not: the second is
the first candidate, and `connect_one_peer` hands exactly that record to the transfer
and returns its answer. -/
theorem connect_one_peer_first_candidate_witness :
    find_connect_candidate (ip_filter_updated filter_state) = 1 ∧
    connect_one_peer (fun s : policy_state × List Nat => s.1) sample_connect_to_peer
      (ip_filter_updated filter_state, []) =
      (true, (ip_filter_updated filter_state, [21])) :=
  have h := (connect_one_peer_first_candidate (fun s : policy_state × List Nat => s.1)
    sample_connect_to_peer (ip_filter_updated filter_state, [])).2.2.1
    { ptr := 21, endpoint := ⟨66, 1⟩, connectable := false, connection := none }
    (by decide)
  ⟨by decide, h.2⟩

/-! ## The claims on `connect_to_peer` and `want_more_peers` -/

theorem mem_set_insert (c : Nat) (xs : List Nat) : c ∈ set_insert c xs := by
  unfold set_insert
  by_cases h : c ∈ xs
  · rw [if_pos h]; exact h
  · rw [if_neg h]
    exact (List.mem_orderedInsert (fun a b => a ≤ b)).mpr (Or.inl rfl)

theorem set_insert_erase (c : Nat) (xs : List Nat) (h : c ∉ xs) :
    (set_insert c xs).erase c = xs := by
  unfold set_insert
  rw [if_neg h]
  exact List.erase_orderedInsert_of_not_mem h

theorem set_insert_nodup (c : Nat) (xs : List Nat) (h : xs.Nodup) :
    (set_insert c xs).Nodup := by
  unfold set_insert
  by_cases hc : c ∈ xs
  · rw [if_pos hc]; exact h
  · rw [if_neg hc]
    rw [(List.perm_orderedInsert (fun a b => a ≤ b) c xs).nodup_iff]
    exact List.nodup_cons.mpr ⟨hc, h⟩

theorem set_insert_erase_not_mem (c : Nat) (xs : List Nat) (h : xs.Nodup) :
    c ∉ (set_insert c xs).erase c := by
  intro hmem
  exact ((set_insert_nodup c xs h).mem_erase_iff.mp hmem).1 rfl

/-- C21. When the enqueue throws, `connect_to_peer` returns false and disconnects the new
connection with `no_error`; afterwards the connection is neither in the connection set
of the transfer nor in the session-wide one, and a set that did not hold it before the
call is as it was before the call. The set of the transfer is erased from by the code,
the session-wide one by the disconnect. -/
theorem connect_to_peer_enqueue_failure {P : Type} (st : transfer_state P)
    (peerinfo c : Nat) (sock : tcp_socket) (q : peer)
    (hq : st.policy.m_peers.find? (fun x => decide (x.ptr = peerinfo)) = some q)
    (hlocal : st.m_connections.Nodup) (hglobal : st.policy.ses.m_connections.Nodup) :
    ∃ st1 : transfer_state P,
      connect_to_peer st peerinfo c sock true = some (false, st1) ∧
      st1.calls = st.calls ++ [transfer_event.disconnect c error_code.no_error 1] ∧
      st1.policy.disconnects = st.policy.disconnects ++ [(c, error_code.no_error, 1)] ∧
      c ∉ st1.m_connections ∧
      c ∉ st1.policy.ses.m_connections ∧
      (c ∉ st.m_connections → st1.m_connections = st.m_connections) ∧
      (c ∉ st.policy.ses.m_connections →
        st1.policy.ses.m_connections = st.policy.ses.m_connections) := by
  unfold connect_to_peer
  simp only [hq, if_true]
  refine ⟨_, rfl, rfl, ?_, ?_, ?_, ?_, ?_⟩
  · simp [transfer_disconnect]
  · simp only [transfer_disconnect]
    exact set_insert_erase_not_mem c st.m_connections hlocal
  · simp only [transfer_disconnect, close_connection, disconnect_ses]
    exact set_insert_erase_not_mem c st.policy.ses.m_connections hglobal
  · intro hc
    simp only [transfer_disconnect]
    exact set_insert_erase c st.m_connections hc
  · intro hc
    simp only [transfer_disconnect, close_connection, disconnect_ses]
    exact set_insert_erase c st.policy.ses.m_connections hc

/-- A transfer without connections in a session without connections: after the failed
enqueue for the new connection 5 both sets are empty again, and the call returned false
after one disconnect with `no_error`. -/
theorem connect_to_peer_enqueue_failure_witness :
    connecting_transfer.m_connections.Nodup ∧
    connecting_transfer.policy.ses.m_connections.Nodup ∧
    (connect_to_peer connecting_transfer 20 5 unopened_socket true).map
      (fun r => (r.1, r.2.m_connections, r.2.policy.ses.m_connections,
        r.2.policy.disconnects)) =
      some (false, [], [], [(5, error_code.no_error, 1)]) ∧
    (connect_to_peer connecting_transfer 20 5 unopened_socket false).map
      (fun r => (r.1, r.2.m_connections, r.2.policy.ses.m_connections)) =
      some (true, [5], [5]) ∧
    ∃ st1 : transfer_state sample_picker,
      connect_to_peer connecting_transfer 20 5 unopened_socket true = some (false, st1) ∧
      st1.calls = connecting_transfer.calls ++
        [transfer_event.disconnect 5 error_code.no_error 1] ∧
      st1.policy.disconnects = connecting_transfer.policy.disconnects ++
        [(5, error_code.no_error, 1)] ∧
      5 ∉ st1.m_connections ∧
      5 ∉ st1.policy.ses.m_connections ∧
      (5 ∉ connecting_transfer.m_connections →
        st1.m_connections = connecting_transfer.m_connections) ∧
      (5 ∉ connecting_transfer.policy.ses.m_connections →
        st1.policy.ses.m_connections = connecting_transfer.policy.ses.m_connections) :=
  ⟨by decide, by decide, rfl, by decide,
    connect_to_peer_enqueue_failure connecting_transfer 20 5 unopened_socket
      (peer.create 20 ⟨3, 1⟩ false) (by decide) (by decide) (by decide)⟩

/-- C22. The call `want_more_peers()` is true exactly when the transfer is not paused and
not aborted, where it is paused when its own flag is set or the session is paused:
`want_more_peers = !(m_paused || session paused) && !m_abort`. -/
theorem want_more_peers_iff {P : Type} (st : transfer_state P) :
    (want_more_peers st = true ↔ is_paused st = false ∧ st.m_abort = false) ∧
    (is_paused st = true ↔ st.m_paused = true ∨ st.policy.ses.is_paused = true) ∧
    want_more_peers st = (!(st.m_paused || st.policy.ses.is_paused) && !st.m_abort) := by
  unfold want_more_peers is_paused
  cases st.m_paused <;> cases st.policy.ses.is_paused <;> cases st.m_abort <;> simp

/-! ## The claim on `known_file_collection` -/

/-- C25. The member `save` leaves with `known_file_invalid_header` exactly when `m_nHeader`
is neither `MET_HEADER` nor `MET_HEADER_WITH_LARGEFILES`, and then the archive is as it
was. The member `load` leaves with `known_file_invalid_header` exactly when the header
byte it read is neither of the two, and then the file list of the collection is as it
was and the archive is as the read of the header byte left it. So for an archive that
yields the header of a collection, `load` rejects the header exactly when `save` rejects
the collection. -/
theorem known_file_header_validation {A L : Type} (ops : archive A L)
    (kfc : known_file_collection L) (ar : A) :
    ((kfc.save ops ar).1 = some serialize_exception.known_file_invalid_header ↔
      kfc.m_nHeader ≠ MET_HEADER ∧ kfc.m_nHeader ≠ MET_HEADER_WITH_LARGEFILES) ∧
    ((kfc.save ops ar).1 = some serialize_exception.known_file_invalid_header →
      (kfc.save ops ar).2 = ar) ∧
    ((kfc.load ops ar).1 = some serialize_exception.known_file_invalid_header ↔
      ∃ b : Nat, (ops.load_uint8 ar).1 = Except.ok b ∧
        b ≠ MET_HEADER ∧ b ≠ MET_HEADER_WITH_LARGEFILES) ∧
    ((kfc.load ops ar).1 = some serialize_exception.known_file_invalid_header →
      (kfc.load ops ar).2.1.m_known_file_list = kfc.m_known_file_list ∧
      (kfc.load ops ar).2.2 = (ops.load_uint8 ar).2) ∧
    (∀ (other : known_file_collection L) (ar1 : A),
      (ops.load_uint8 ar).1 = Except.ok kfc.m_nHeader →
      ((other.load ops ar).1 = some serialize_exception.known_file_invalid_header ↔
        (kfc.save ops ar1).1 = some serialize_exception.known_file_invalid_header)) := by
  have hsave : ∀ (k : known_file_collection L) (a : A),
      ((k.save ops a).1 = some serialize_exception.known_file_invalid_header ↔
        k.m_nHeader ≠ MET_HEADER ∧ k.m_nHeader ≠ MET_HEADER_WITH_LARGEFILES) ∧
      ((k.save ops a).1 = some serialize_exception.known_file_invalid_header →
        (k.save ops a).2 = a) := by
    intro k a
    unfold known_file_collection.save
    by_cases hv : k.m_nHeader ≠ MET_HEADER ∧ k.m_nHeader ≠ MET_HEADER_WITH_LARGEFILES
    · rw [if_pos hv]
      exact ⟨⟨fun _ => hv, fun _ => rfl⟩, fun _ => rfl⟩
    · rw [if_neg hv]
      rcases h1 : ops.save_uint8 a k.m_nHeader with ⟨e1, a1⟩
      cases e1 with
      | some e => simp [hv]
      | none =>
        simp only []
        rcases h2 : ops.save_list a1 k.m_known_file_list with ⟨e2, a2⟩
        cases e2 with
        | some e => simp [hv]
        | none => simp [hv]
  have hload : ∀ (k : known_file_collection L),
      ((k.load ops ar).1 = some serialize_exception.known_file_invalid_header ↔
        ∃ b : Nat, (ops.load_uint8 ar).1 = Except.ok b ∧
          b ≠ MET_HEADER ∧ b ≠ MET_HEADER_WITH_LARGEFILES) ∧
      ((k.load ops ar).1 = some serialize_exception.known_file_invalid_header →
        (k.load ops ar).2.1.m_known_file_list = k.m_known_file_list ∧
        (k.load ops ar).2.2 = (ops.load_uint8 ar).2) := by
    intro k
    unfold known_file_collection.load
    rcases h1 : ops.load_uint8 ar with ⟨r1, a1⟩
    cases r1 with
    | error e => simp
    | ok b =>
      simp only []
      by_cases hv : b ≠ MET_HEADER ∧ b ≠ MET_HEADER_WITH_LARGEFILES
      · rw [if_pos hv]
        simp [hv]
      · rw [if_neg hv]
        rcases h2 : ops.load_list a1 with ⟨r2, a2⟩
        cases r2 with
        | error e =>
          simp only [Except.ok.injEq, exists_eq_left']
          simp [hv]
        | ok l =>
          simp only [Except.ok.injEq, exists_eq_left']
          simp [hv]
  refine ⟨(hsave kfc ar).1, (hsave kfc ar).2, (hload kfc).1, (hload kfc).2, ?_⟩
  intro other ar1 hb
  rw [(hload other).1, (hsave kfc ar1).1]
  constructor
  · rintro ⟨b, hb1, hb2⟩
    rw [hb] at hb1
    cases hb1
    exact hb2
  · intro hv
    exact ⟨kfc.m_nHeader, hb, hv⟩

/-- On the sample archive: a collection with the header `0x0F` is written and read back;
one with the header `0x10` is neither written nor, when its bytes are presented, read. -/
theorem known_file_header_validation_witness :
    (known_file_collection.save sample_archive ⟨0x0F, [1, 2, 3]⟩ []) =
      (none, [0x0F, 3, 1, 2, 3]) ∧
    (known_file_collection.load sample_archive ⟨0, []⟩ [0x0F, 3, 1, 2, 3]).1 = none ∧
    (known_file_collection.save sample_archive ⟨0x10, [1, 2, 3]⟩ []).1 =
      some serialize_exception.known_file_invalid_header ∧
    (known_file_collection.save sample_archive ⟨0x10, [1, 2, 3]⟩ []).2 = [] ∧
    (known_file_collection.load sample_archive ⟨0, []⟩ [0x10, 3, 1, 2, 3]).1 =
      some serialize_exception.known_file_invalid_header ∧
    (known_file_collection.load sample_archive ⟨0, []⟩ [0x10, 3, 1, 2, 3]).2.2 =
      [3, 1, 2, 3] :=
  have h := known_file_header_validation sample_archive ⟨0x10, [1, 2, 3]⟩ []
  have hs := h.1.mpr (by decide)
  have h2 := known_file_header_validation sample_archive ⟨0, []⟩ [0x10, 3, 1, 2, 3]
  have hl := h2.2.2.1.mpr ⟨0x10, rfl, by decide, by decide⟩
  ⟨by decide, by decide, hs, h.2.1 hs, hl, (h2.2.2.2.1 hl).2⟩

/-! ## The claims on the order of the registry -/

/-- On a sorted registry `upper_bound` is the partition point: the records before it have
an address that is not greater, the records from it on have a greater one. -/
theorem upper_bound_spec {xs : List peer} (hs : sorted_by_address xs) (a : Nat) :
    (∀ (j : Nat) (x : peer), j < upper_bound xs a → xs[j]? = some x → x.address ≤ a) ∧
    (∀ (j : Nat) (x : peer), upper_bound xs a ≤ j → xs[j]? = some x → a < x.address) := by
  have h := bound_loop_partition (fun m => !address_peer_compare a m) xs
    (by
      intro i j x y hij hx hy hg
      have := sorted_getElem?_le hs hij hx hy
      simp only [address_peer_compare, Bool.not_eq_true', decide_eq_false_iff_not] at hg ⊢
      omega)
    xs.length 0 xs.length (Nat.le_refl _) (by omega)
    (by intro j x hj; omega)
    (by
      intro j x hj hx
      have := (List.getElem?_eq_some.mp hx).1
      omega)
  constructor
  · intro j x hj hx
    have := h.1 j x hj hx
    simp only [address_peer_compare, Bool.not_eq_true', decide_eq_false_iff_not] at this
    omega
  · intro j x hj hx
    have := h.2 j x hj hx
    simp only [address_peer_compare, Bool.not_eq_false', decide_eq_true_eq] at this
    exact this

theorem lower_bound_le_upper_bound {xs : List peer} (hs : sorted_by_address xs) (a : Nat) :
    lower_bound xs a ≤ upper_bound xs a := by
  by_contra hlt
  have hub := upper_bound_le xs a
  have hlb := lower_bound_le xs a
  have hx : xs[upper_bound xs a]? = some xs[upper_bound xs a] :=
    List.getElem?_eq_getElem (by omega)
  have h1 := (lower_bound_spec hs a).1 _ _ (by omega) hx
  have h2 := (upper_bound_spec hs a).2 _ _ (Nat.le_refl _) hx
  omega

/-- A record put at a position keeps a pairwise relation of the registry when the records
before the position are related to it and it is related to the records from there on. -/
theorem vector_insert_pairwise {R : peer → peer → Prop} {xs : List peer}
    (hs : xs.Pairwise R) (it : Nat) (p : peer)
    (hbefore : ∀ x ∈ xs.take it, R x p) (hafter : ∀ y ∈ xs.drop it, R p y) :
    (vector_insert xs it p).Pairwise R := by
  have hsplit : (xs.take it ++ xs.drop it).Pairwise R := by
    rw [List.take_append_drop]; exact hs
  have hparts := List.pairwise_append.mp hsplit
  unfold vector_insert
  refine List.pairwise_append.mpr ⟨hparts.1, List.pairwise_cons.mpr ⟨hafter, hparts.2.1⟩, ?_⟩
  intro x hx y hy
  rcases List.mem_cons.mp hy with rfl | hy
  · exact hbefore x hx
  · exact hparts.2.2 x hx y hy

theorem strictly_sorted_sorted {xs : List peer} (hs : strictly_sorted_by_address xs) :
    sorted_by_address xs := by
  refine List.Pairwise.imp ?_ hs
  intro p q h
  simp only [peer_address_compare, decide_eq_true_eq, decide_eq_false_iff_not] at h ⊢
  omega

/-- In single-connection-per-IP mode, when the lookup finds nothing on a strictly sorted
registry, a record for the address put at the iterator keeps the registry strictly
sorted. -/
theorem vector_insert_strictly_sorted (st : policy_state) (ep : tcp_endpoint) (p : peer)
    (hmode : st.ses.settings.allow_multiple_connections_per_ip = false)
    (hs : strictly_sorted_by_address st.m_peers)
    (hnf : (lookup st ep).2 = false) (hp : p.address = ep.address) :
    (lookup st ep).1 = lower_bound st.m_peers ep.address ∧
    strictly_sorted_by_address (vector_insert st.m_peers (lookup st ep).1 p) := by
  have hsorted := strictly_sorted_sorted hs
  have hspec := lower_bound_spec hsorted ep.address
  have hnone : ∀ q ∈ st.m_peers, q.address ≠ ep.address := by
    intro q hq hqa
    cases hf : st.m_peers.find? (fun x => decide (x.address = ep.address)) with
    | none =>
      have := List.find?_eq_none.mp hf q hq
      simp [hqa] at this
    | some q1 =>
      have := (lookup_single_found st ep q1 hmode hsorted hf).1
      rw [this] at hnf
      cases hnf
  refine ⟨lookup_single st ep hmode, ?_⟩
  rw [lookup_single st ep hmode]
  apply vector_insert_pairwise hs
  · intro x hx
    obtain ⟨j, hj, hxj⟩ := mem_take_index hx
    have := hspec.1 j x hj hxj
    simp only [peer_address_compare, decide_eq_true_eq]
    omega
  · intro y hy
    obtain ⟨j, hj, hyj⟩ := mem_drop_index hy
    have h1 := hspec.2 j y hj hyj
    have h2 := hnone y (List.mem_iff_getElem?.mpr ⟨j, hyj⟩)
    simp only [peer_address_compare, decide_eq_true_eq]
    omega

/-- In multiple-connections-per-IP mode, when the lookup finds nothing on a sorted
registry, the iterator is the upper bound of the address, no record has the endpoint,
and a record for the endpoint put there keeps the registry sorted. -/
theorem vector_insert_multiple (st : policy_state) (ep : tcp_endpoint) (p : peer)
    (hmode : st.ses.settings.allow_multiple_connections_per_ip = true)
    (hs : sorted_by_address st.m_peers)
    (hnf : (lookup st ep).2 = false) (hp : p.address = ep.address) :
    (lookup st ep).1 = upper_bound st.m_peers ep.address ∧
    (∀ q ∈ st.m_peers, q.endpoint ≠ ep) ∧
    sorted_by_address (vector_insert st.m_peers (lookup st ep).1 p) := by
  have hlb := lower_bound_spec hs ep.address
  have hub := upper_bound_spec hs ep.address
  have hle := lower_bound_le_upper_bound hs ep.address
  have hlen := upper_bound_le st.m_peers ep.address
  have hit : (lookup st ep).1 = upper_bound st.m_peers ep.address := by
    unfold lookup at hnf ⊢
    simp only [hmode, if_true] at hnf ⊢
    simpa [find_peers] using hnf
  have hscan := find_if_loop_first (match_peer_endpoint ep) st.m_peers
    (upper_bound st.m_peers ep.address - lower_bound st.m_peers ep.address)
    (lower_bound st.m_peers ep.address) (by omega)
  have hsum : lower_bound st.m_peers ep.address +
      (upper_bound st.m_peers ep.address - lower_bound st.m_peers ep.address)
      = upper_bound st.m_peers ep.address := by omega
  rw [hsum] at hscan
  have hres : find_if_loop (match_peer_endpoint ep) st.m_peers
      (upper_bound st.m_peers ep.address - lower_bound st.m_peers ep.address)
      (lower_bound st.m_peers ep.address) (upper_bound st.m_peers ep.address)
      = upper_bound st.m_peers ep.address := by
    have := hit
    unfold lookup at this
    simp only [hmode, if_true] at this
    simpa [find_peers, find_if] using this
  rw [hres] at hscan
  refine ⟨hit, ?_, ?_⟩
  · intro q hq hqe
    obtain ⟨j, hj⟩ := List.mem_iff_getElem?.mp hq
    have hqa : q.address = ep.address := by simp [peer.address, hqe]
    have h1 : lower_bound st.m_peers ep.address ≤ j := by
      by_contra hlt
      have := hlb.1 j q (by omega) hj
      omega
    have h2 : j < upper_bound st.m_peers ep.address := by
      by_contra hge
      have := hub.2 j q (by omega) hj
      omega
    have := hscan.2.2.1 j q h1 h2 hj
    simp [match_peer_endpoint, hqe] at this
  · rw [hit]
    apply vector_insert_pairwise hs
    · intro x hx
      obtain ⟨j, hj, hxj⟩ := mem_take_index hx
      have := hub.1 j x hj hxj
      simp only [peer_address_compare, decide_eq_false_iff_not]
      omega
    · intro y hy
      obtain ⟨j, hj, hyj⟩ := mem_drop_index hy
      have := hub.2 j y hj hyj
      simp only [peer_address_compare, decide_eq_false_iff_not]
      omega

theorem modify_connection_endpoints (x : Option Nat) (xs : List peer) :
    ∀ n : Nat, (xs.modify (fun q => { q with connection := x }) n).map peer.endpoint
      = xs.map peer.endpoint := by
  induction xs with
  | nil => intro n; simp
  | cons y ys ih =>
    intro n
    cases n with
    | zero => simp
    | succ n => simp [ih n]

theorem bind_connection_endpoints (s : policy_state) (it : Nat) (i : peer) (c : Nat) :
    (bind_connection s it i c).m_peers.map peer.endpoint = s.m_peers.map peer.endpoint := by
  simp only [bind_connection, set_peer, assign_connection_at]
  exact modify_connection_endpoints (some c) s.m_peers it

theorem disconnect_endpoints (s : policy_state) (c : Nat) (ec : error_code) (n : Nat) :
    (disconnect s c ec n).m_peers.map peer.endpoint = s.m_peers.map peer.endpoint :=
  (only_cleared_maps (disconnect_only_cleared s c ec n)).2.2

/-- The registry after `add_peer`: as it was, or, when the lookup found nothing, with one
new record for the endpoint at the iterator. -/
theorem add_peer_registry (st : policy_state) (ep : tcp_endpoint) :
    (add_peer st ep).2.m_peers = st.m_peers ∨
    ((lookup st ep).2 = false ∧ ∃ p : Nat, (add_peer st ep).2.m_peers =
      vector_insert st.m_peers (lookup st ep).1 (peer.create p ep false)) := by
  unfold add_peer
  split
  · exact Or.inl rfl
  · simp only []
    cases hf : (lookup st ep).2 with
    | true => exact Or.inl rfl
    | false =>
      simp only [Bool.false_eq_true, if_false]
      cases hpool : st.ses.m_peer_pool.malloc with
      | mk res pool =>
        cases res with
        | none => exact Or.inl rfl
        | some p => exact Or.inr ⟨trivial, p, rfl⟩

/-- The endpoints of the registry after `new_connection`: as they were, or, when the
lookup found nothing, with the remote endpoint of the connection at the iterator. -/
theorem new_connection_endpoints (st : policy_state) (c : Nat) :
    (new_connection st c).2.m_peers.map peer.endpoint = st.m_peers.map peer.endpoint ∨
    ((lookup st (st.conns c).remote).2 = false ∧
      ∃ p : Nat, (new_connection st c).2.m_peers.map peer.endpoint =
        (vector_insert st.m_peers (lookup st (st.conns c).remote).1
          (peer.create p (st.conns c).remote false)).map peer.endpoint) := by
  cases hl : lookup st (st.conns c).remote with
  | mk it found =>
    cases found with
    | true =>
      left
      have hf : (lookup st (st.conns c).remote).2 = true := by rw [hl]
      obtain ⟨i, hi, _⟩ := lookup_found st _ hf
      rw [hl] at hi
      simp only [] at hi
      cases he : i.connection with
      | none =>
        have heq : new_connection st c = (true, bind_connection st it i c) := by
          unfold new_connection
          simp only [hl, if_true, hi, he]
        rw [heq]
        exact bind_connection_endpoints st it i c
      | some e =>
        rw [new_connection_live st c it e i hl hi he]
        split
        · exact disconnect_endpoints _ _ _ _
        · split
          · split
            · exact disconnect_endpoints _ _ _ _
            · simp only [disconnect_endpoints]
          · split
            · simp only [bind_connection_endpoints, disconnect_endpoints]
            · split
              · exact disconnect_endpoints _ _ _ _
              · simp only [bind_connection_endpoints, disconnect_endpoints]
    | false =>
      unfold new_connection
      simp only [hl, Bool.false_eq_true, if_false]
      split
      · left
        exact disconnect_endpoints _ _ _ _
      · cases hpool : st.ses.m_peer_pool.malloc with
        | mk res pool =>
          cases res with
          | none => exact Or.inl rfl
          | some p =>
            right
            refine ⟨trivial, p, ?_⟩
            simp only [bind_connection_endpoints]

theorem pairwise_endpoints (S : tcp_endpoint → tcp_endpoint → Prop) {xs ys : List peer}
    (h : ys.map peer.endpoint = xs.map peer.endpoint)
    (hx : xs.Pairwise (fun p q => S p.endpoint q.endpoint)) :
    ys.Pairwise (fun p q => S p.endpoint q.endpoint) := by
  rw [← List.pairwise_map] at hx ⊢
  rw [h]
  exact hx

theorem strictly_sorted_endpoints {xs ys : List peer}
    (h : ys.map peer.endpoint = xs.map peer.endpoint)
    (hx : strictly_sorted_by_address xs) : strictly_sorted_by_address ys :=
  pairwise_endpoints (fun a b => decide (a.address < b.address) = true) h hx

theorem sorted_endpoints {xs ys : List peer}
    (h : ys.map peer.endpoint = xs.map peer.endpoint)
    (hx : sorted_by_address xs) : sorted_by_address ys :=
  pairwise_endpoints (fun a b => decide (b.address < a.address) = false) h hx

theorem vector_insert_distinct {xs : List peer} (hd : distinct_endpoints xs) (it : Nat)
    (p : peer) (hp : ∀ q ∈ xs, q.endpoint ≠ p.endpoint) :
    distinct_endpoints (vector_insert xs it p) := by
  unfold distinct_endpoints vector_insert
  rw [List.map_append, List.map_cons, List.nodup_middle, ← List.map_append,
    List.take_append_drop]
  refine List.nodup_cons.mpr ⟨?_, hd⟩
  intro hmem
  obtain ⟨q, hq, hqe⟩ := List.mem_map.mp hmem
  exact hp q hq hqe

/-- C23. In single-connection-per-IP mode a registry that is strictly sorted by address is
strictly sorted by address after every `add_peer` and after every `new_connection`, so
that no address gets a second record; the endpoints of the registry after
`new_connection` are those before, or those before with the remote endpoint of the
connection at the lower bound of its address. -/
theorem strictly_sorted_preserved (st : policy_state)
    (hmode : st.ses.settings.allow_multiple_connections_per_ip = false)
    (hs : strictly_sorted_by_address st.m_peers) :
    (∀ ep : tcp_endpoint, strictly_sorted_by_address (add_peer st ep).2.m_peers) ∧
    (∀ c : Nat, strictly_sorted_by_address (new_connection st c).2.m_peers) ∧
    (∀ c : Nat,
      (new_connection st c).2.m_peers.map peer.endpoint = st.m_peers.map peer.endpoint ∨
      ∃ p : Nat, (new_connection st c).2.m_peers.map peer.endpoint =
        (vector_insert st.m_peers (lower_bound st.m_peers (st.conns c).remote.address)
          (peer.create p (st.conns c).remote false)).map peer.endpoint) := by
  refine ⟨?_, ?_, ?_⟩
  · intro ep
    rcases add_peer_registry st ep with h | ⟨hnf, p, h⟩
    · rw [h]; exact hs
    · rw [h]
      exact (vector_insert_strictly_sorted st ep (peer.create p ep false) hmode hs hnf rfl).2
  · intro c
    rcases new_connection_endpoints st c with h | ⟨hnf, p, h⟩
    · exact strictly_sorted_endpoints h hs
    · exact strictly_sorted_endpoints h
        (vector_insert_strictly_sorted st (st.conns c).remote
          (peer.create p (st.conns c).remote false) hmode hs hnf rfl).2
  · intro c
    rcases new_connection_endpoints st c with h | ⟨hnf, p, h⟩
    · exact Or.inl h
    · right
      refine ⟨p, ?_⟩
      rw [h, lookup_single st _ hmode]

/-- The strictly sorted registry with the addresses 3 and 5: it stays strictly sorted when
the address 4 is added and when a connection from the address 2 is admitted. -/
theorem strictly_sorted_preserved_witness :
    sample_sorted_state.ses.settings.allow_multiple_connections_per_ip = false ∧
    strictly_sorted_by_address sample_sorted_state.m_peers ∧
    strictly_sorted_by_address (add_peer sample_sorted_state ⟨4, 1⟩).2.m_peers ∧
    strictly_sorted_by_address (new_connection sample_sorted_state 0).2.m_peers ∧
    (new_connection sample_sorted_state 0).2.m_peers.map peer.address = [2, 3, 5] :=
  have h := strictly_sorted_preserved sample_sorted_state (by decide) (by decide)
  ⟨by decide, by decide, h.1 ⟨4, 1⟩, h.2.1 0, by decide⟩

/-- C24. In multiple-connections-per-IP mode a registry that is sorted by address and has
pairwise distinct endpoints is sorted and has pairwise distinct endpoints after every
`add_peer` and after every `new_connection`: either no record is added, or no record had
the endpoint and one record for it is put at the upper bound of its address, the end of
the sub-range of the address. -/
theorem sorted_distinct_preserved (st : policy_state)
    (hmode : st.ses.settings.allow_multiple_connections_per_ip = true)
    (hs : sorted_by_address st.m_peers) (hd : distinct_endpoints st.m_peers) :
    (∀ ep : tcp_endpoint,
      sorted_by_address (add_peer st ep).2.m_peers ∧
      distinct_endpoints (add_peer st ep).2.m_peers ∧
      ((add_peer st ep).2.m_peers = st.m_peers ∨
        ((∀ q ∈ st.m_peers, q.endpoint ≠ ep) ∧
          ∃ p : Nat, (add_peer st ep).2.m_peers =
            vector_insert st.m_peers (upper_bound st.m_peers ep.address)
              (peer.create p ep false)))) ∧
    (∀ c : Nat,
      sorted_by_address (new_connection st c).2.m_peers ∧
      distinct_endpoints (new_connection st c).2.m_peers ∧
      ((new_connection st c).2.m_peers.map peer.endpoint = st.m_peers.map peer.endpoint ∨
        ((∀ q ∈ st.m_peers, q.endpoint ≠ (st.conns c).remote) ∧
          ∃ p : Nat, (new_connection st c).2.m_peers.map peer.endpoint =
            (vector_insert st.m_peers (upper_bound st.m_peers (st.conns c).remote.address)
              (peer.create p (st.conns c).remote false)).map peer.endpoint))) := by
  constructor
  · intro ep
    rcases add_peer_registry st ep with h | ⟨hnf, p, h⟩
    · rw [h]; exact ⟨hs, hd, Or.inl rfl⟩
    · obtain ⟨hit, hnew, hsorted⟩ :=
        vector_insert_multiple st ep (peer.create p ep false) hmode hs hnf rfl
      rw [h]
      refine ⟨hsorted, vector_insert_distinct hd _ _ hnew, Or.inr ⟨hnew, p, ?_⟩⟩
      rw [hit]
  · intro c
    rcases new_connection_endpoints st c with h | ⟨hnf, p, h⟩
    · refine ⟨sorted_endpoints h hs, ?_, Or.inl h⟩
      unfold distinct_endpoints
      rw [h]
      exact hd
    · obtain ⟨hit, hnew, hsorted⟩ := vector_insert_multiple st (st.conns c).remote
        (peer.create p (st.conns c).remote false) hmode hs hnf rfl
      refine ⟨sorted_endpoints h hsorted, ?_, Or.inr ⟨hnew, p, ?_⟩⟩
      · unfold distinct_endpoints
        rw [h]
        exact vector_insert_distinct hd _ _ hnew
      · rw [h, hit]

/-- The registry with the endpoints `3:1`, `3:2`, `5:1`: adding `3:3` puts the new record
behind the two records of the address 3, and adding `3:2` again changes nothing. -/
theorem sorted_distinct_preserved_witness :
    multiple_state.ses.settings.allow_multiple_connections_per_ip = true ∧
    sorted_by_address multiple_state.m_peers ∧
    distinct_endpoints multiple_state.m_peers ∧
    sorted_by_address (add_peer multiple_state ⟨3, 3⟩).2.m_peers ∧
    distinct_endpoints (add_peer multiple_state ⟨3, 3⟩).2.m_peers ∧
    (add_peer multiple_state ⟨3, 3⟩).2.m_peers.map peer.endpoint =
      [⟨3, 1⟩, ⟨3, 2⟩, ⟨3, 3⟩, ⟨5, 1⟩] ∧
    (add_peer multiple_state ⟨3, 2⟩).2.m_peers = multiple_state.m_peers :=
  have h := (sorted_distinct_preserved multiple_state (by decide) (by decide)
    (by decide)).1 ⟨3, 3⟩
  ⟨by decide, by decide, by decide, h.1, h.2.1, by decide, by decide⟩

/-- The sample transfer wants more peers; it does not when it is paused, when the session
is paused, or when it is aborted. -/
theorem want_more_peers_iff_witness :
    want_more_peers (flagged_transfer false false false) = true ∧
    want_more_peers (flagged_transfer true false false) = false ∧
    want_more_peers (flagged_transfer false true false) = false ∧
    want_more_peers (flagged_transfer false false true) = false :=
  ⟨(want_more_peers_iff (flagged_transfer false false false)).1.mpr ⟨by decide, by decide⟩,
    by decide, by decide, by decide⟩

end libed2k
